import Mathlib

/-!
Verification of the metadata-surgery core: a shallow embedding of the Go
byte-level container codecs (PNG chunks, FLAC metadata blocks, RIFF/WAV
chunks, JPEG marker segments, ISOBMFF/MP4 atoms) and of the edit/strip
operations built on them, together with theorems settling the frozen
claims about the implementation.

Buffers are `List Nat` of byte values; multi-byte reads/writes carry their
endianness explicitly, mirroring the Go `encoding/binary` calls.
-/

set_option maxRecDepth 10000

namespace MMS

/-- Big-endian 4-byte encoding (Go `binary.BigEndian.PutUint32`). -/
def be32 (n : Nat) : List Nat :=
  [n / 2 ^ 24 % 256, n / 2 ^ 16 % 256, n / 2 ^ 8 % 256, n % 256]

/-- Little-endian 4-byte encoding (Go `binary.LittleEndian.PutUint32`). -/
def le32 (n : Nat) : List Nat :=
  [n % 256, n / 2 ^ 8 % 256, n / 2 ^ 16 % 256, n / 2 ^ 24 % 256]

/-- Big-endian value of a byte list (Go `binary.BigEndian.Uint32` /
`Uint16` read the listed bytes most-significant first). -/
def beVal (l : List Nat) : Nat := l.foldl (fun acc b => acc * 256 + b) 0

/-- Little-endian value of a byte list (Go `binary.LittleEndian.Uint32`). -/
def leVal (l : List Nat) : Nat := l.foldr (fun b acc => acc * 256 + b) 0

theorem be32_length (n : Nat) : (be32 n).length = 4 := rfl

theorem le32_length (n : Nat) : (le32 n).length = 4 := rfl

theorem beVal_be32 (n : Nat) (h : n < 2 ^ 32) : beVal (be32 n) = n := by
  simp only [be32, beVal, List.foldl]
  omega

theorem leVal_le32 (n : Nat) (h : n < 2 ^ 32) : leVal (le32 n) = n := by
  simp only [le32, leVal, List.foldr]
  omega

theorem be32_lt_256 (n : Nat) : ∀ b ∈ be32 n, b < 256 := by
  intro b hb
  simp only [be32, List.mem_cons, List.not_mem_nil, or_false] at hb
  rcases hb with h | h | h | h <;> subst h <;> omega

/-- One step of the reflected CRC-32 shift with polynomial `0xEDB88320`
(the inner loop of `crc32PNG`'s table construction). -/
def crcStep (c : Nat) : Nat :=
  if c % 2 = 1 then Nat.xor 0xEDB88320 (c / 2) else c / 2

/-- Entry `i` of the PNG CRC-32 table: eight shift steps applied to `i`. -/
def crcTableEntry (i : Nat) : Nat :=
  crcStep (crcStep (crcStep (crcStep (crcStep (crcStep (crcStep (crcStep i)))))))

/-- CRC-32 accumulator update for one byte
(`crc = table[(crc^uint32(b))&0xFF] ^ (crc >> 8)` in `crc32PNG`). -/
def crcUpdate (crc b : Nat) : Nat :=
  Nat.xor (crcTableEntry (Nat.xor crc b % 256)) (crc / 256)

/-- `crc32PNG`: CRC-32 over chunk type then payload, with the standard
pre/post inversion. -/
def crc32PNG (typ data : List Nat) : Nat :=
  Nat.xor (List.foldl crcUpdate (List.foldl crcUpdate 0xFFFFFFFF typ) data) 0xFFFFFFFF

/-- A PNG chunk as held in memory by the Go code (`pngChunk`): type tag and
payload.  The stored CRC bytes are read and discarded by `readPNGChunks`. -/
structure PngChunk where
  typ  : List Nat
  data : List Nat
deriving DecidableEq, Repr

/-- The 8-byte PNG signature checked by `readPNGChunks`. -/
def pngSig : List Nat := [0x89, 0x50, 0x4E, 0x47, 0x0D, 0x0A, 0x1A, 0x0A]

/-- Byte spelling of the chunk type tEXt. -/
def tEXtTy : List Nat := [116, 69, 88, 116]

/-- Byte spelling of the chunk type IEND. -/
def iendTy : List Nat := [73, 69, 78, 68]

/-- Byte spelling of the chunk type IDAT. -/
def idatTy : List Nat := [73, 68, 65, 84]

/-- Byte spelling of the chunk type IHDR. -/
def ihdrTy : List Nat := [73, 72, 68, 82]

/-- The chunk-reading loop of `readPNGChunks`: read a 4-byte big-endian
length, a 4-byte type, `length` payload bytes and 4 CRC bytes (whose
contents are ignored, and whose short read is not an error), stopping at an
`IEND` chunk or at any short read.  The wrapper passes the buffer length as
fuel; every iteration consumes at least eight bytes, so that fuel never
runs out on the wrapper's call. -/
def readPNGChunksLoop (fuel : Nat) (buf : List Nat) : List PngChunk :=
  match fuel with
  | 0 => []
  | fuel + 1 =>
    if 8 ≤ buf.length then
      let len := beVal (buf.take 4)
      let typ := (buf.drop 4).take 4
      let rest := buf.drop 8
      if len ≤ rest.length then
        let c : PngChunk := ⟨typ, rest.take len⟩
        if typ = iendTy then [c]
        else c :: readPNGChunksLoop fuel (rest.drop (len + 4))
      else []
    else []

/-- `readPNGChunks`: check the 8-byte signature (hard failure otherwise),
then run the chunk loop on the remainder. -/
def readPNGChunks (buf : List Nat) : Option (List PngChunk) :=
  if buf.take 8 = pngSig then some (readPNGChunksLoop buf.length (buf.drop 8)) else none

/-- Serialization of one chunk with an explicitly given stored CRC value
(used to model input buffers whose CRC fields are arbitrary). -/
def writePNGChunkCRC (c : PngChunk) (crc : Nat) : List Nat :=
  be32 c.data.length ++ c.typ ++ c.data ++ be32 crc

/-- `writePNGChunk`: length, type, payload, then a CRC freshly recomputed
over type and payload. -/
def writePNGChunk (c : PngChunk) : List Nat :=
  writePNGChunkCRC c (crc32PNG c.typ c.data)

/-- `writePNGChunks`: signature followed by each chunk's serialization. -/
def writePNGChunks (chunks : List PngChunk) : List Nat :=
  pngSig ++ (chunks.map writePNGChunk).flatten

/-- A PNG byte stream with arbitrary per-chunk stored CRC values. -/
def writePNGStream (cs : List (PngChunk × Nat)) : List Nat :=
  pngSig ++ (cs.map fun p => writePNGChunkCRC p.1 p.2).flatten

/-- Error taxonomy surfaced by the byte-level operations (each constructor
stands for one of the `fmt.Errorf`/panic outcomes of the Go code). -/
inductive MediaErr where
  | notThisFormat
  | truncated
  | indexOutOfRange
  | noMoov
  | noFields
  | sliceBounds
deriving DecidableEq, Repr

instance {ε α : Type} [DecidableEq ε] [DecidableEq α] : DecidableEq (Except ε α) := fun x y =>
  match x, y with
  | .ok a, .ok b =>
    if h : a = b then isTrue (by rw [h]) else isFalse (by intro he; cases he; exact h rfl)
  | .error a, .error b =>
    if h : a = b then isTrue (by rw [h]) else isFalse (by intro he; cases he; exact h rfl)
  | .ok _, .error _ => isFalse (by intro h; cases h)
  | .error _, .ok _ => isFalse (by intro h; cases h)

/-- `core.EditOptions`: field assignments, deletions and the dry-run flag.
Keys and values are byte strings; the Go `map[string]string` is modelled as
an association list with unique keys, iterated in list order. -/
structure EditOpts where
  set    : List (List Nat × List Nat)
  del    : List (List Nat)
  dryRun : Bool

/-- `core.StripOptions`. -/
structure StripOpts where
  keepFields : List (List Nat)
  stripGPS   : Bool
  stripAll   : Bool

/-- ASCII lower-casing of one byte (`strings.ToLower` on ASCII data). -/
def toLowerAscii (b : Nat) : Nat := if 65 ≤ b ∧ b ≤ 90 then b + 32 else b

/-- ASCII upper-casing of one byte (`strings.ToUpper` on ASCII data). -/
def toUpperAscii (b : Nat) : Nat := if 97 ≤ b ∧ b ≤ 122 then b - 32 else b

/-- `strings.ToLower` over a byte string (ASCII range). -/
def lowerBytes (l : List Nat) : List Nat := l.map toLowerAscii

/-- `strings.ToUpper` over a byte string (ASCII range). -/
def upperBytes (l : List Nat) : List Nat := l.map toUpperAscii

/-- Keyword extraction from a tEXt payload: `bytes.IndexByte(data, 0)` must
be strictly positive; the keyword is everything before that NUL. -/
def pngKeyOf (data : List Nat) : Option (List Nat) :=
  match data.findIdx? (fun b => decide (b = 0)) with
  | some n => if 0 < n then some (data.take n) else none
  | none => none

/-- Lookup in the `set` association list (`opts.Set[key]`). -/
def setLookup (set : List (List Nat × List Nat)) (k : List Nat) : Option (List Nat) :=
  (set.find? (fun p => decide (p.1 = k))).map (·.2)

/-- Membership in the delete list (`delSet[key]`). -/
def delMem (del : List (List Nat)) (k : List Nat) : Bool :=
  del.any (fun d => decide (d = k))

/-- The first loop of `editPNG`: drop deleted tEXt chunks and update tEXt
chunks whose keyword is assigned in `set`; all other chunks pass through. -/
def editPNGPass (set : List (List Nat × List Nat)) (del : List (List Nat)) :
    List PngChunk → List PngChunk
  | [] => []
  | c :: rest =>
    if c.typ = tEXtTy then
      match pngKeyOf c.data with
      | some k =>
        if delMem del k then editPNGPass set del rest
        else
          match setLookup set k with
          | some v => ⟨tEXtTy, k ++ 0 :: v⟩ :: editPNGPass set del rest
          | none => c :: editPNGPass set del rest
      | none => c :: editPNGPass set del rest
    else c :: editPNGPass set del rest

/-- `setDone[k]` after the first loop of `editPNG`: some tEXt chunk carries
keyword `k` and was not deleted (so the in-place update handled `k`). -/
def pngChunkDone (del : List (List Nat)) (chunks : List PngChunk) (k : List Nat) : Bool :=
  chunks.any fun c =>
    decide (c.typ = tEXtTy) &&
      match pngKeyOf c.data with
      | some k2 => decide (k2 = k) && !(delMem del k2)
      | none => false

/-- The chunks `editPNG` freshly builds for `set` keys not already present. -/
def pngAddChunks (set : List (List Nat × List Nat)) (del : List (List Nat))
    (chunks : List PngChunk) : List PngChunk :=
  (set.filter fun p => !(pngChunkDone del chunks p.1)).map
    fun p => ⟨tEXtTy, p.1 ++ 0 :: p.2⟩

/-- Insertion of the fresh chunks before the first IDAT chunk (appended at
the end when no IDAT is present). -/
def insertBeforeIDAT (addC : List PngChunk) : List PngChunk → List PngChunk
  | [] => addC
  | c :: rest =>
    if c.typ = idatTy then addC ++ c :: rest else c :: insertBeforeIDAT addC rest

/-- The pure chunk-list transformation performed by `editPNG`. -/
def editPNGChunks (opts : EditOpts) (chunks : List PngChunk) : List PngChunk :=
  insertBeforeIDAT (pngAddChunks opts.set opts.del chunks)
    (editPNGPass opts.set opts.del chunks)

/-- `editPNG`: parse (signature failure is fatal), transform, and either
stop before writing (`dryRun`, result `none`) or emit the rebuilt stream. -/
def editPNG (buf : List Nat) (opts : EditOpts) : Except MediaErr (Option (List Nat)) :=
  match readPNGChunks buf with
  | none => .error .notThisFormat
  | some chunks =>
    if opts.dryRun then .ok none
    else .ok (some (writePNGChunks (editPNGChunks opts chunks)))

/-- Byte spelling of the keep-list keyword `all`. -/
def allKw : List Nat := [97, 108, 108]

/-- The `pngMetaChunks` table of `stripPNG`. -/
def pngMetaTypes : List (List Nat) :=
  [tEXtTy, [105, 84, 88, 116], [122, 84, 88, 116], [101, 88, 73, 102],
   [116, 73, 77, 69], [105, 67, 67, 80], [115, 82, 71, 66], [103, 65, 77, 65],
   [99, 72, 82, 77], [98, 75, 71, 68], [104, 73, 83, 84], [112, 72, 89, 115],
   [115, 66, 73, 84], [115, 80, 76, 84]]

/-- The chunk filter of `stripPNG`: metadata chunks survive only when their
lower-cased type is kept (or `all` is kept); other chunks always survive. -/
def stripPNGKeep (keep : List (List Nat)) (c : PngChunk) : Bool :=
  if pngMetaTypes.contains c.typ then
    keep.contains (lowerBytes c.typ) || keep.contains allKw
  else true

/-- `stripPNG`: parse, filter metadata chunks, re-emit. -/
def stripPNG (buf : List Nat) (opts : StripOpts) : Except MediaErr (List Nat) :=
  match readPNGChunks buf with
  | none => .error .notThisFormat
  | some chunks =>
    .ok (writePNGChunks (chunks.filter (stripPNGKeep (opts.keepFields.map lowerBytes))))

/-- A chunk list is stream-shaped when `IEND` occurs at most as its last
element: exactly the shape `readPNGChunks` itself produces. -/
def NoEarlyIend (cs : List PngChunk) : Prop :=
  ∀ c ∈ cs.dropLast, c.typ ≠ iendTy

/-- Well-formed in-memory chunk: 4-byte type tag and a payload short enough
for its length to survive the 32-bit length field. -/
def GoodChunk (c : PngChunk) : Prop :=
  c.typ.length = 4 ∧ c.data.length < 2 ^ 32

instance (c : PngChunk) : Decidable (GoodChunk c) := by
  unfold GoodChunk
  infer_instance

instance (cs : List PngChunk) : Decidable (NoEarlyIend cs) := by
  unfold NoEarlyIend
  infer_instance

theorem noEarlyIend_head {c : PngChunk} {rest : List PngChunk}
    (h : NoEarlyIend (c :: rest)) (hne : rest ≠ []) : c.typ ≠ iendTy := by
  apply h
  cases rest with
  | nil => exact absurd rfl hne
  | cons q qs =>
    rw [List.dropLast_cons₂]
    exact List.mem_cons_self _ _

theorem noEarlyIend_tail {c : PngChunk} {rest : List PngChunk}
    (h : NoEarlyIend (c :: rest)) : NoEarlyIend rest := by
  intro x hx
  apply h
  cases rest with
  | nil => simp at hx
  | cons q qs =>
    rw [List.dropLast_cons₂]
    exact List.mem_cons_of_mem _ hx

theorem writePNGChunkCRC_assoc (c : PngChunk) (crc : Nat) (rest : List Nat) :
    writePNGChunkCRC c crc ++ rest
      = be32 c.data.length ++ (c.typ ++ (c.data ++ (be32 crc ++ rest))) := by
  simp [writePNGChunkCRC, List.append_assoc]

theorem readPNGChunksLoop_step (fuel : Nat) (c : PngChunk) (crc : Nat) (rest : List Nat)
    (htyp : c.typ.length = 4) (hdata : c.data.length < 2 ^ 32) :
    readPNGChunksLoop (fuel + 1) (writePNGChunkCRC c crc ++ rest)
      = if c.typ = iendTy then [c] else c :: readPNGChunksLoop fuel rest := by
  rw [writePNGChunkCRC_assoc]
  have e1 : (be32 c.data.length ++ (c.typ ++ (c.data ++ (be32 crc ++ rest)))).take 4
      = be32 c.data.length := List.take_left' (be32_length _)
  have e2 : (be32 c.data.length ++ (c.typ ++ (c.data ++ (be32 crc ++ rest)))).drop 4
      = c.typ ++ (c.data ++ (be32 crc ++ rest)) := List.drop_left' (be32_length _)
  have e3 : (c.typ ++ (c.data ++ (be32 crc ++ rest))).take 4 = c.typ :=
    List.take_left' htyp
  have e4 : (c.typ ++ (c.data ++ (be32 crc ++ rest))).drop 4
      = c.data ++ (be32 crc ++ rest) := List.drop_left' htyp
  have e7 : (be32 c.data.length ++ (c.typ ++ (c.data ++ (be32 crc ++ rest)))).drop 8
      = c.data ++ (be32 crc ++ rest) := by
    rw [show (8 : Nat) = 4 + 4 from rfl, ← List.drop_drop, e2, e4]
  have e5 : (c.data ++ (be32 crc ++ rest)).take c.data.length = c.data :=
    List.take_left _ _
  have e6 : (c.data ++ (be32 crc ++ rest)).drop (c.data.length + 4) = rest := by
    rw [← List.drop_drop, List.drop_left]
    exact List.drop_left' (be32_length _)
  have hlen : 8 ≤ (be32 c.data.length ++ (c.typ ++ (c.data ++ (be32 crc ++ rest)))).length := by
    simp only [List.length_append, be32_length, htyp]
    omega
  have hle : c.data.length ≤ (c.data ++ (be32 crc ++ rest)).length := by
    simp only [List.length_append]
    omega
  rw [readPNGChunksLoop]
  rw [if_pos hlen]
  simp only [e1, e2, e3, e5, e6, e7, beVal_be32 _ hdata]
  rw [if_pos hle]

theorem readPNGChunksLoop_stream (cs : List (PngChunk × Nat)) (fuel : Nat)
    (hfuel : cs.length ≤ fuel)
    (hgood : ∀ p ∈ cs, GoodChunk p.1)
    (hiend : NoEarlyIend (cs.map (·.1))) :
    readPNGChunksLoop fuel ((cs.map fun p => writePNGChunkCRC p.1 p.2).flatten)
      = cs.map (·.1) := by
  induction cs generalizing fuel with
  | nil =>
    cases fuel with
    | zero => rfl
    | succ n => simp [readPNGChunksLoop]
  | cons p rest ih =>
    obtain ⟨fuel, rfl⟩ : ∃ m, fuel = m + 1 := by
      cases fuel with
      | zero => exact absurd hfuel (by simp)
      | succ m => exact ⟨m, rfl⟩
    obtain ⟨htyp, hdata⟩ := hgood p (List.mem_cons_self p rest)
    simp only [List.map_cons, List.flatten_cons]
    rw [readPNGChunksLoop_step fuel p.1 p.2 _ htyp hdata]
    by_cases hie : p.1.typ = iendTy
    · have hrest : rest = [] := by
        by_contra hne
        refine noEarlyIend_head hiend ?_ hie
        simpa using hne
      subst hrest
      simp [hie]
    · rw [if_neg hie]
      rw [ih fuel (by simpa using Nat.le_of_succ_le_succ hfuel)
        (fun q hq => hgood q (List.mem_cons_of_mem _ hq))
        (noEarlyIend_tail hiend)]

theorem flatten_length_ge (cs : List (PngChunk × Nat)) :
    cs.length ≤ ((cs.map fun p => writePNGChunkCRC p.1 p.2).flatten).length := by
  induction cs with
  | nil => simp
  | cons p rest ih =>
    simp only [List.map_cons, List.flatten_cons, List.length_append, List.length_cons]
    have h1 : 1 ≤ (writePNGChunkCRC p.1 p.2).length := by
      simp only [writePNGChunkCRC, List.length_append, be32_length]
      omega
    omega

/-- The decoder recovers exactly the in-memory chunks from a serialized
stream, whatever CRC values the stream carries. -/
theorem readPNGChunks_stream (cs : List (PngChunk × Nat))
    (hgood : ∀ p ∈ cs, GoodChunk p.1)
    (hiend : NoEarlyIend (cs.map (·.1))) :
    readPNGChunks (writePNGStream cs) = some (cs.map (·.1)) := by
  unfold readPNGChunks writePNGStream
  rw [if_pos (List.take_left' (show pngSig.length = 8 from rfl)),
    List.drop_left' (show pngSig.length = 8 from rfl)]
  rw [readPNGChunksLoop_stream cs _ ?_ hgood hiend]
  have h := flatten_length_ge cs
  simp only [List.length_append]
  omega

/-- `writePNGChunks` is the CRC-correct instance of the general stream. -/
theorem writePNGChunks_eq_stream (cs : List PngChunk) :
    writePNGChunks cs = writePNGStream (cs.map fun c => (c, crc32PNG c.typ c.data)) := by
  unfold writePNGChunks writePNGStream writePNGChunk
  rw [List.map_map]
  rfl

theorem map_fst_pair_crc (cs : List PngChunk) :
    (cs.map fun c => ((c, crc32PNG c.typ c.data) : PngChunk × Nat)).map (·.1) = cs := by
  rw [List.map_map]
  exact List.map_id cs

/-- Round trip for the CRC-correct serializer. -/
theorem readPNGChunks_write (cs : List PngChunk)
    (hgood : ∀ c ∈ cs, GoodChunk c)
    (hiend : NoEarlyIend cs) :
    readPNGChunks (writePNGChunks cs) = some cs := by
  rw [writePNGChunks_eq_stream]
  have h := readPNGChunks_stream (cs.map fun c => (c, crc32PNG c.typ c.data))
    (by
      intro p hp
      simp only [List.mem_map] at hp
      obtain ⟨c, hc, rfl⟩ := hp
      exact hgood c hc)
    (by rw [map_fst_pair_crc]; exact hiend)
  rw [map_fst_pair_crc] at h
  exact h

theorem lor_mul_pow_add (a b k : Nat) (hb : b < 2 ^ k) :
    2 ^ k * a ||| b = 2 ^ k * a + b := by
  apply Nat.eq_of_testBit_eq
  intro i
  rw [Nat.testBit_lor, Nat.testBit_mul_pow_two_add a hb, Nat.testBit_mul_pow_two]
  by_cases h : i < k
  · simp [h, Nat.not_le.mpr h]
  · have hbi : b.testBit i = false :=
      Nat.testBit_lt_two_pow
        (lt_of_lt_of_le hb (Nat.pow_le_pow_right (by norm_num) (Nat.le_of_not_lt h)))
    simp [h, Nat.le_of_not_lt h, hbi]

/-- `flacBlock`: metadata block type and payload. -/
structure FlacBlock where
  blockType : Nat
  data      : List Nat
deriving DecidableEq, Repr

/-- The 4-byte FLAC stream marker. -/
def fLaCMagic : List Nat := [102, 76, 97, 67]

/-- The block-reading loop of `parseFLACBlocks` on the buffer after the
magic (or after a previous block): 4-byte big-endian header carrying the
last-flag (bit 31), the block type (bits 24-30) and the 24-bit payload
length; a payload extending past the buffer is a hard `truncated` error;
the loop stops after a block whose last-flag is set.  Returns the parsed
blocks and the number of bytes consumed.  The wrapper passes the whole
buffer length as fuel, which bounds the iteration count. -/
def parseFLACLoop (fuel : Nat) (buf : List Nat) : Except MediaErr (List FlacBlock × Nat) :=
  match fuel with
  | 0 => .ok ([], 0)
  | fuel + 1 =>
    if 4 ≤ buf.length then
      let header := beVal (buf.take 4)
      let len := header % 2 ^ 24
      if 4 + len ≤ buf.length then
        let b : FlacBlock := ⟨header / 2 ^ 24 % 128, (buf.drop 4).take len⟩
        if header / 2 ^ 31 = 1 then .ok ([b], 4 + len)
        else
          match parseFLACLoop fuel (buf.drop (4 + len)) with
          | .ok (bs, consumed) => .ok (b :: bs, 4 + len + consumed)
          | .error e => .error e
      else .error .truncated
    else .ok ([], 0)

/-- `parseFLACBlocks`: skip the 4 magic bytes, run the block loop, and
report the audio start offset (the Go `i` at loop exit). -/
def parseFLACBlocks (data : List Nat) : Except MediaErr (List FlacBlock × Nat) :=
  match parseFLACLoop data.length (data.drop 4) with
  | .ok (bs, consumed) => .ok (bs, 4 + consumed)
  | .error e => .error e

/-- The fixed vendor string `buildVorbisComment` writes
(`Media Metadata Surgery v0.1.2`). -/
def vorbisVendor : List Nat :=
  [77, 101, 100, 105, 97, 32, 77, 101, 116, 97, 100, 97, 116, 97, 32,
   83, 117, 114, 103, 101, 114, 121, 32, 118, 48, 46, 49, 46, 50]

/-- Go `map[string]string` assignment, determinized as an association list:
overwrite in place when the key exists, append otherwise. -/
def mapSet (m : List (List Nat × List Nat)) (k v : List Nat) :
    List (List Nat × List Nat) :=
  if m.any (fun p => decide (p.1 = k)) then
    m.map fun p => if p.1 = k then (k, v) else p
  else m ++ [(k, v)]

/-- Go `delete(m, k)`. -/
def mapDel (m : List (List Nat × List Nat)) (k : List Nat) :
    List (List Nat × List Nat) :=
  m.filter fun p => !(decide (p.1 = k))

/-- Split a Vorbis comment at its first `=` (`strings.Index(comment, "=")`
must be strictly positive). -/
def vorbisEqSplit (comment : List Nat) : Option (List Nat × List Nat) :=
  match comment.findIdx? (fun b => decide (b = 61)) with
  | some e => if 0 < e then some (comment.take e, comment.drop (e + 1)) else none
  | none => none

/-- The comment loop of `parseVorbisComments`: up to `count` entries, each a
4-byte little-endian length plus `KEY=VALUE` bytes; keys are upper-cased and
inserted into the map; short reads end the loop silently. -/
def parseVorbisLoop (count : Nat) (buf : List Nat)
    (m : List (List Nat × List Nat)) : List (List Nat × List Nat) :=
  match count with
  | 0 => m
  | count + 1 =>
    if 4 ≤ buf.length then
      let cLen := leVal (buf.take 4)
      if cLen ≤ (buf.drop 4).length then
        let m2 := match vorbisEqSplit ((buf.drop 4).take cLen) with
          | some p => mapSet m (upperBytes p.1) p.2
          | none => m
        parseVorbisLoop count ((buf.drop 4).drop cLen) m2
      else m
    else m

/-- `parseVorbisComments`: vendor length, vendor string (skipped), comment
count, then the comment loop; malformed prefixes leave the map unchanged. -/
def parseVorbisComments (data : List Nat) (m : List (List Nat × List Nat)) :
    List (List Nat × List Nat) :=
  if 4 ≤ data.length then
    let vendorLen := leVal (data.take 4)
    if 4 + vendorLen + 4 ≤ data.length then
      parseVorbisLoop (leVal ((data.drop (4 + vendorLen)).take 4))
        (data.drop (4 + vendorLen + 4)) m
    else m
  else m

/-- `buildVorbisComment`: fixed vendor, comment count, then each field as
`KEY=VALUE` with a little-endian length prefix, in map order. -/
def buildVorbisComment (fields : List (List Nat × List Nat)) : List Nat :=
  le32 vorbisVendor.length ++ vorbisVendor ++ le32 fields.length ++
    (fields.map fun p => le32 (p.1.length + 1 + p.2.length) ++ p.1 ++ 61 :: p.2).flatten

/-- The 4-byte block header written by `writeFLAC`:
`uint32(blockType)<<24 | uint32(len(data))`, with bit 31 set on the final
block. -/
def flacHeaderWord (isLast : Bool) (b : FlacBlock) : Nat :=
  let base := b.blockType % 256 * 2 ^ 24 ||| b.data.length % 2 ^ 32
  if isLast then base ||| 2 ^ 31 else base

/-- The block section written by `writeFLAC` (last-flag on the final
block). -/
def serializeFLACBlocks : List FlacBlock → List Nat
  | [] => []
  | [b] => be32 (flacHeaderWord true b) ++ b.data
  | b :: b2 :: rest => be32 (flacHeaderWord false b) ++ b.data ++ serializeFLACBlocks (b2 :: rest)

/-- `writeFLAC`: magic, serialized blocks, then the audio bytes. -/
def writeFLACBytes (blocks : List FlacBlock) (audio : List Nat) : List Nat :=
  fLaCMagic ++ serializeFLACBlocks blocks ++ audio

/-- The field-map update of `editFLAC`: `set` with upper-cased keys, then
`delete` with upper-cased keys. -/
def applyVorbisEdits (m : List (List Nat × List Nat)) (opts : EditOpts) :
    List (List Nat × List Nat) :=
  opts.del.foldl (fun acc k => mapDel acc (upperBytes k))
    (opts.set.foldl (fun acc p => mapSet acc (upperBytes p.1) p.2) m)

/-- `editFLAC`: magic check (hard failure), dry-run short circuit, block
parse, Vorbis-comment rebuild, and re-serialization.  On the insertion path
(no type-4 block) the Go code reads `blocks[0]` unconditionally; an empty
block list therefore panics, modelled as `indexOutOfRange`. -/
def editFLAC (data : List Nat) (opts : EditOpts) : Except MediaErr (Option (List Nat)) :=
  if data.take 4 = fLaCMagic then
    if opts.dryRun then .ok none
    else
      match parseFLACBlocks data with
      | .error e => .error e
      | .ok (blocks, audioStart) =>
        match blocks.findIdx? (fun b => decide (b.blockType = 4)) with
        | some i =>
          let old := blocks.getD i ⟨0, []⟩
          let m := applyVorbisEdits (parseVorbisComments old.data []) opts
          .ok (some (writeFLACBytes
            (blocks.set i { old with data := buildVorbisComment m })
            (data.drop audioStart)))
        | none =>
          let m := applyVorbisEdits [] opts
          match blocks with
          | [] => .error .indexOutOfRange
          | b0 :: rest =>
            .ok (some (writeFLACBytes (b0 :: ⟨4, buildVorbisComment m⟩ :: rest)
              (data.drop audioStart)))
  else .error .notThisFormat

/-- In-memory FLAC block whose fields survive the 7-bit type and 24-bit
length header fields. -/
def GoodBlock (b : FlacBlock) : Prop :=
  b.blockType < 128 ∧ b.data.length < 2 ^ 24

instance (b : FlacBlock) : Decidable (GoodBlock b) := by
  unfold GoodBlock
  infer_instance

theorem flacHeaderWord_false (b : FlacBlock) (hb : b.blockType < 128)
    (hd : b.data.length < 2 ^ 24) :
    flacHeaderWord false b = b.blockType * 2 ^ 24 + b.data.length := by
  unfold flacHeaderWord
  have h1 : b.blockType % 256 = b.blockType := Nat.mod_eq_of_lt (by omega)
  have h2 : b.data.length % 2 ^ 32 = b.data.length := Nat.mod_eq_of_lt (by omega)
  simp only [Bool.false_eq_true, if_false, h1, h2]
  rw [Nat.mul_comm, lor_mul_pow_add _ _ _ hd, Nat.mul_comm]

theorem flacHeaderWord_true (b : FlacBlock) (hb : b.blockType < 128)
    (hd : b.data.length < 2 ^ 24) :
    flacHeaderWord true b = 2 ^ 31 + (b.blockType * 2 ^ 24 + b.data.length) := by
  unfold flacHeaderWord
  have h1 : b.blockType % 256 = b.blockType := Nat.mod_eq_of_lt (by omega)
  have h2 : b.data.length % 2 ^ 32 = b.data.length := Nat.mod_eq_of_lt (by omega)
  simp only [if_true, h1, h2]
  rw [Nat.mul_comm, lor_mul_pow_add _ _ _ hd]
  rw [Nat.lor_comm]
  rw [show (2 ^ 31 : Nat) = 2 ^ 31 * 1 from by norm_num]
  rw [lor_mul_pow_add 1 _ 31 (by omega)]

theorem flacHeaderWord_lt (isLast : Bool) (b : FlacBlock) (hb : b.blockType < 128)
    (hd : b.data.length < 2 ^ 24) : flacHeaderWord isLast b < 2 ^ 32 := by
  cases isLast
  · rw [flacHeaderWord_false b hb hd]; omega
  · rw [flacHeaderWord_true b hb hd]; omega

theorem parseFLACLoop_step_last (fuel : Nat) (b : FlacBlock) (audio : List Nat)
    (hb : b.blockType < 128) (hd : b.data.length < 2 ^ 24) :
    parseFLACLoop (fuel + 1) (be32 (flacHeaderWord true b) ++ (b.data ++ audio))
      = .ok ([b], 4 + b.data.length) := by
  have hw := flacHeaderWord_true b hb hd
  have e1 : (be32 (flacHeaderWord true b) ++ (b.data ++ audio)).take 4
      = be32 (flacHeaderWord true b) := List.take_left' (be32_length _)
  have e2 : (be32 (flacHeaderWord true b) ++ (b.data ++ audio)).drop 4
      = b.data ++ audio := List.drop_left' (be32_length _)
  have hval : beVal (be32 (flacHeaderWord true b)) = flacHeaderWord true b :=
    beVal_be32 _ (flacHeaderWord_lt true b hb hd)
  have hlen4 : 4 ≤ (be32 (flacHeaderWord true b) ++ (b.data ++ audio)).length := by
    simp only [List.length_append, be32_length]; omega
  have hmod : flacHeaderWord true b % 2 ^ 24 = b.data.length := by rw [hw]; omega
  have hdiv31 : flacHeaderWord true b / 2 ^ 31 = 1 := by rw [hw]; omega
  have hdiv24 : flacHeaderWord true b / 2 ^ 24 % 128 = b.blockType := by rw [hw]; omega
  have hle : 4 + b.data.length ≤ (be32 (flacHeaderWord true b) ++ (b.data ++ audio)).length := by
    simp only [List.length_append, be32_length]; omega
  rw [parseFLACLoop]
  rw [if_pos hlen4]
  simp only [e1, e2, hval, hmod, hdiv31, hdiv24]
  rw [if_pos hle]
  simp only [List.take_left, if_true]

theorem parseFLACLoop_step_mid (fuel : Nat) (b : FlacBlock) (rest : List Nat)
    (hb : b.blockType < 128) (hd : b.data.length < 2 ^ 24) :
    parseFLACLoop (fuel + 1) (be32 (flacHeaderWord false b) ++ (b.data ++ rest))
      = match parseFLACLoop fuel rest with
        | .ok (bs, consumed) => .ok (b :: bs, 4 + b.data.length + consumed)
        | .error e => .error e := by
  have hw := flacHeaderWord_false b hb hd
  have e1 : (be32 (flacHeaderWord false b) ++ (b.data ++ rest)).take 4
      = be32 (flacHeaderWord false b) := List.take_left' (be32_length _)
  have e2 : (be32 (flacHeaderWord false b) ++ (b.data ++ rest)).drop 4
      = b.data ++ rest := List.drop_left' (be32_length _)
  have hval : beVal (be32 (flacHeaderWord false b)) = flacHeaderWord false b :=
    beVal_be32 _ (flacHeaderWord_lt false b hb hd)
  have hlen4 : 4 ≤ (be32 (flacHeaderWord false b) ++ (b.data ++ rest)).length := by
    simp only [List.length_append, be32_length]; omega
  have hmod : flacHeaderWord false b % 2 ^ 24 = b.data.length := by rw [hw]; omega
  have hdiv31 : ¬(flacHeaderWord false b / 2 ^ 31 = 1) := by rw [hw]; omega
  have hdiv24 : flacHeaderWord false b / 2 ^ 24 % 128 = b.blockType := by rw [hw]; omega
  have hle : 4 + b.data.length ≤ (be32 (flacHeaderWord false b) ++ (b.data ++ rest)).length := by
    simp only [List.length_append, be32_length]; omega
  have e4 : (be32 (flacHeaderWord false b) ++ (b.data ++ rest)).drop (4 + b.data.length)
      = rest := by
    rw [show 4 + b.data.length = (be32 (flacHeaderWord false b)).length + b.data.length by
      rw [be32_length]]
    rw [← List.drop_drop]
    rw [List.drop_left]
    exact List.drop_left _ _
  rw [parseFLACLoop]
  rw [if_pos hlen4]
  simp only [e1, e2, e4, hval, hmod, hdiv24]
  rw [if_pos hle, if_neg hdiv31]
  simp only [List.take_left]

theorem parseFLACLoop_serialize (blocks : List FlacBlock) (audio : List Nat)
    (fuel : Nat) (hfuel : blocks.length ≤ fuel)
    (hgood : ∀ b ∈ blocks, GoodBlock b) (hne : blocks ≠ []) :
    parseFLACLoop fuel (serializeFLACBlocks blocks ++ audio)
      = .ok (blocks, (serializeFLACBlocks blocks).length) := by
  induction blocks generalizing fuel with
  | nil => exact absurd rfl hne
  | cons b rest ih =>
    obtain ⟨fuel, rfl⟩ : ∃ m, fuel = m + 1 := by
      cases fuel with
      | zero => exact absurd hfuel (by simp)
      | succ m => exact ⟨m, rfl⟩
    obtain ⟨hb, hd⟩ := hgood b (List.mem_cons_self b rest)
    cases rest with
    | nil =>
      rw [show serializeFLACBlocks [b] = be32 (flacHeaderWord true b) ++ b.data from rfl]
      rw [List.append_assoc]
      rw [parseFLACLoop_step_last fuel b audio hb hd]
      simp [be32_length]
    | cons b2 rest2 =>
      rw [show serializeFLACBlocks (b :: b2 :: rest2)
          = be32 (flacHeaderWord false b) ++ b.data ++ serializeFLACBlocks (b2 :: rest2)
          from rfl]
      rw [List.append_assoc, List.append_assoc]
      rw [parseFLACLoop_step_mid fuel b _ hb hd]
      rw [ih fuel (by simpa using Nat.le_of_succ_le_succ hfuel)
        (fun q hq => hgood q (List.mem_cons_of_mem _ hq)) (by simp)]
      dsimp only
      simp only [List.length_append, be32_length]

theorem serializeFLACBlocks_length_ge (blocks : List FlacBlock) :
    blocks.length ≤ (serializeFLACBlocks blocks).length := by
  induction blocks with
  | nil => simp [serializeFLACBlocks]
  | cons b rest ih =>
    cases rest with
    | nil =>
      simp only [serializeFLACBlocks, List.length_append, be32_length, List.length_cons,
        List.length_nil]
      omega
    | cons b2 rest2 =>
      rw [show serializeFLACBlocks (b :: b2 :: rest2)
          = be32 (flacHeaderWord false b) ++ b.data ++ serializeFLACBlocks (b2 :: rest2)
          from rfl]
      simp only [List.length_append, be32_length, List.length_cons]
      simp only [List.length_cons] at ih
      omega

/-- Round trip for the FLAC block section: parsing a serialized stream
recovers the blocks and reports the audio start right after the metadata
section, whatever the audio bytes are. -/
theorem parseFLACBlocks_write (blocks : List FlacBlock) (audio : List Nat)
    (hgood : ∀ b ∈ blocks, GoodBlock b) (hne : blocks ≠ []) :
    parseFLACBlocks (writeFLACBytes blocks audio)
      = .ok (blocks, 4 + (serializeFLACBlocks blocks).length) := by
  unfold parseFLACBlocks writeFLACBytes
  rw [List.append_assoc]
  rw [List.drop_left' (show fLaCMagic.length = 4 from rfl)]
  rw [parseFLACLoop_serialize blocks audio _ ?_ hgood hne]
  have h := serializeFLACBlocks_length_ge blocks
  simp only [List.length_append]
  omega

theorem writeFLACBytes_take (blocks : List FlacBlock) (audio : List Nat) :
    (writeFLACBytes blocks audio).take 4 = fLaCMagic := by
  unfold writeFLACBytes
  rw [List.append_assoc]
  exact List.take_left' rfl

theorem writeFLACBytes_drop_audio (blocks : List FlacBlock) (audio : List Nat) :
    (writeFLACBytes blocks audio).drop (4 + (serializeFLACBlocks blocks).length) = audio := by
  unfold writeFLACBytes
  rw [List.append_assoc]
  rw [show 4 + (serializeFLACBlocks blocks).length
      = fLaCMagic.length + (serializeFLACBlocks blocks).length from rfl]
  rw [← List.drop_drop, List.drop_left]
  exact List.drop_left _ _

/-- `bytes.Index`: the first index at which `pat` occurs in the buffer
(`none` for the Go return value `-1`). -/
def indexOfSeq (pat : List Nat) : List Nat → Option Nat
  | [] => if pat = [] then some 0 else none
  | b :: rest =>
    if pat = (b :: rest).take pat.length then some 0
    else (indexOfSeq pat rest).map (· + 1)

/-- One `set` entry of `editMP4` after key mapping: 4-byte atom name and
value bytes. -/
structure MP4Entry where
  name : List Nat
  val  : List Nat
deriving DecidableEq, Repr

/-- Byte spelling of the atom type ilst. -/
def ilstTy : List Nat := [105, 108, 115, 116]

/-- Byte spelling of the atom type moov. -/
def moovTy : List Nat := [109, 111, 111, 118]

/-- Byte spelling of the atom type udta. -/
def udtaTy : List Nat := [117, 100, 116, 97]

/-- Byte spelling of the atom type meta. -/
def metaTy : List Nat := [109, 101, 116, 97]

/-- Byte spelling of the atom type mdat. -/
def mdatTy : List Nat := [109, 100, 97, 116]

/-- `buildiTunesDataAtom`: 4-byte size, then the type bytes.  The Go code
writes `
data` into bytes 4..8 and then overwrites byte 7 with the
type-indicator `0x01`, so the serialized tag is `d`,`a`,`t`,`0x01` and the
following eight bytes (intended as type indicator and locale) stay zero. -/
def buildiTunesDataAtom (val : List Nat) : List Nat :=
  be32 (16 + val.length) ++ [100, 97, 116, 1] ++ [0, 0, 0, 0, 0, 0, 0, 0] ++ val

/-- `packAtom`: 8-byte header (size, 4-byte name zero-padded or truncated
by the Go `copy`) plus content. -/
def packAtom (name content : List Nat) : List Nat :=
  be32 (8 + content.length) ++ (name.take 4 ++ List.replicate (4 - name.length) 0) ++ content

/-- One ilst child written by `patchMP4Ilst`: size, the entry name written
in full, then the nested data atom. -/
def ilstEntryBytes (e : MP4Entry) : List Nat :=
  be32 (8 + (16 + e.val.length)) ++ e.name ++ buildiTunesDataAtom e.val

/-- The new ilst payload `patchMP4Ilst` builds: exactly the `set` entries,
nothing else. -/
def ilstContentOf (entries : List MP4Entry) : List Nat :=
  (entries.map ilstEntryBytes).flatten

/-- `fixMP4Sizes`: the source's parent-size fix-up, a no-op placeholder
("best-effort" per its own comment). -/
def fixMP4Sizes (data : List Nat) : List Nat := data

/-- The no-ilst branch of `patchMP4Ilst`: find `moov` (error when absent or
found before offset 4), read its declared size, and splice a fresh
`udta/meta/ilst` wrapper at the end of `moov`.  The Go slicing panics when
the declared size points past the buffer; modelled as `sliceBounds`. -/
def mp4AppendPath (data : List Nat) (ilstContent : List Nat) : Except MediaErr (List Nat) :=
  match indexOfSeq moovTy data with
  | none => .error .noMoov
  | some midx =>
    if midx < 4 then .error .noMoov
    else
      let moovSize := beVal ((data.drop (midx - 4)).take 4)
      let insertAt := midx - 4 + moovSize
      if insertAt ≤ data.length then
        let udta := packAtom udtaTy
          (packAtom metaTy ([0, 0, 0, 0] ++ packAtom ilstTy ilstContent))
        .ok (fixMP4Sizes (data.take insertAt ++ udta ++ data.drop insertAt))
      else .error .sliceBounds

/-- `patchMP4Ilst`: build the new ilst payload from the entries, locate the
byte pattern `ilst` (a plain `bytes.Index` search), and when found at index
greater than 4 replace `existingSize` bytes starting 4 bytes earlier with
the new atom; otherwise append a fresh subtree at the end of `moov`.  The
`delKeys` argument is accepted and never read, exactly as in the source. -/
def patchMP4Ilst (data : List Nat) (entries : List MP4Entry)
    (delKeys : List (List Nat)) : Except MediaErr (List Nat) :=
  let ilstContent := ilstContentOf entries
  match indexOfSeq ilstTy data with
  | some idx =>
    if 4 < idx then
      let existingSize := beVal ((data.drop (idx - 4)).take 4)
      if idx - 4 + existingSize ≤ data.length then
        .ok (fixMP4Sizes (data.take (idx - 4)
          ++ (be32 (8 + ilstContent.length) ++ ilstTy ++ ilstContent)
          ++ data.drop (idx - 4 + existingSize)))
      else .error .sliceBounds
    else mp4AppendPath data ilstContent
  | none => mp4AppendPath data ilstContent

/-- `strings.EqualFold` on ASCII byte strings. -/
def eqFold (a b : List Nat) : Bool := decide (lowerBytes a = lowerBytes b)

/-- The `itunesAtomNames` table (atom name, friendly name), in source
order.  `0xA9` is the copyright sign prefix of the `©`-atoms. -/
def itunesAtomNames : List (List Nat × List Nat) :=
  [([0xA9, 110, 97, 109], [84, 105, 116, 108, 101]),
   ([0xA9, 65, 82, 84], [65, 114, 116, 105, 115, 116]),
   ([0xA9, 97, 108, 98], [65, 108, 98, 117, 109]),
   ([0xA9, 100, 97, 121], [89, 101, 97, 114]),
   ([0xA9, 103, 101, 110], [71, 101, 110, 114, 101]),
   ([0xA9, 99, 109, 116], [67, 111, 109, 109, 101, 110, 116]),
   ([0xA9, 108, 121, 114], [76, 121, 114, 105, 99, 115]),
   ([0xA9, 116, 111, 111], [69, 110, 99, 111, 100, 105, 110, 103, 84, 111, 111, 108]),
   ([0xA9, 119, 114, 116], [67, 111, 109, 112, 111, 115, 101, 114]),
   ([97, 65, 82, 84], [65, 108, 98, 117, 109, 65, 114, 116, 105, 115, 116]),
   ([99, 112, 114, 116], [67, 111, 112, 121, 114, 105, 103, 104, 116]),
   ([100, 101, 115, 99], [68, 101, 115, 99, 114, 105, 112, 116, 105, 111, 110])]

/-- The key mapping of `editMP4`: the first table row whose friendly name
or atom name fold-matches the requested key; an unmatched key is used
verbatim as the atom name. -/
def mp4AtomKeyFor (k : List Nat) : List Nat :=
  match itunesAtomNames.find? (fun p => eqFold p.2 k || eqFold p.1 k) with
  | some p => p.1
  | none => k

/-- `editMP4`: dry-run short circuit, entry construction from `set`, the
no-change error, then `patchMP4Ilst`. -/
def editMP4 (data : List Nat) (opts : EditOpts) : Except MediaErr (Option (List Nat)) :=
  if opts.dryRun then .ok none
  else
    let entries := opts.set.map fun p => MP4Entry.mk (mp4AtomKeyFor p.1) p.2
    if entries.length = 0 ∧ opts.del.length = 0 then .error .noFields
    else
      match patchMP4Ilst data entries opts.del with
      | .ok out => .ok (some out)
      | .error e => .error e

/-- `removeMP4Atom`: find the byte pattern, read the 4 bytes before it as
the atom size, and splice that range out; out-of-range finds or sizes
return the buffer unchanged. -/
def removeMP4Atom (data : List Nat) (atomType : List Nat) : List Nat :=
  match indexOfSeq atomType data with
  | none => data
  | some idx =>
    if idx < 4 then data
    else
      let size := beVal ((data.drop (idx - 4)).take 4)
      if data.length < idx - 4 + size then data
      else data.take (idx - 4) ++ data.drop (idx - 4 + size)

/-- `jpegSegment`: marker byte and payload (marker `0x00` holds the raw
entropy-coded scan tail, `0xD8`/`0xD9` carry no payload). -/
structure JpegSegment where
  marker : Nat
  data   : List Nat
deriving DecidableEq, Repr

/-- The segment loop of `parseJPEGSegments` after the SOI bytes: a byte
other than `0xFF` starts the raw scan tail; `0xD8`/`0xD9` are bare
markers; anything else carries a 2-byte big-endian length that includes
itself.  Malformed lengths end the loop silently. -/
def parseJPEGLoop (fuel : Nat) (buf : List Nat) : List JpegSegment :=
  match fuel with
  | 0 => []
  | fuel + 1 =>
    match buf with
    | [] => []
    | b :: rest =>
      if b ≠ 0xFF then [⟨0x00, b :: rest⟩]
      else
        match rest with
        | [] => []
        | marker :: rest2 =>
          if marker = 0xD8 then ⟨marker, []⟩ :: parseJPEGLoop fuel rest2
          else if marker = 0xD9 then [⟨marker, []⟩]
          else
            if 2 ≤ rest2.length then
              let segLen := beVal (rest2.take 2)
              if 2 ≤ segLen ∧ segLen - 2 ≤ (rest2.drop 2).length then
                ⟨marker, (rest2.drop 2).take (segLen - 2)⟩
                  :: parseJPEGLoop fuel ((rest2.drop 2).drop (segLen - 2))
              else []
            else []

/-- `parseJPEGSegments`: a buffer not starting with the SOI marker is a
hard failure; otherwise the SOI pseudo-segment followed by the loop. -/
def parseJPEGSegments (data : List Nat) : Except MediaErr (List JpegSegment) :=
  match data with
  | 0xFF :: 0xD8 :: rest => .ok (⟨0xD8, []⟩ :: parseJPEGLoop data.length rest)
  | _ => .error .notThisFormat

/-- One segment as written by `writeJPEGSegments`. -/
def writeJPEGSegment (s : JpegSegment) : List Nat :=
  if s.marker = 0xD8 then [0xFF, 0xD8]
  else if s.marker = 0xD9 then [0xFF, 0xD9]
  else if s.marker = 0 then s.data
  else
    0xFF :: s.marker :: ((s.data.length + 2) % 65536 / 256)
      :: ((s.data.length + 2) % 256) :: s.data

/-- `writeJPEGSegments`. -/
def writeJPEGSegments (segs : List JpegSegment) : List Nat :=
  (segs.map writeJPEGSegment).flatten

/-- The `Exif\x00\x00` payload prefix of an EXIF APP1 segment. -/
def exifMagic : List Nat := [69, 120, 105, 102, 0, 0]

/-- The XMP APP1 payload prefix (`http://ns.adobe.com/xap/1.0/` + NUL). -/
def xmpPrefix : List Nat :=
  [104, 116, 116, 112, 58, 47, 47, 110, 115, 46, 97, 100, 111, 98, 101,
   46, 99, 111, 109, 47, 120, 97, 112, 47, 49, 46, 48, 47, 0]

/-- The IPTC APP13 payload prefix (`Photoshop 3.0` + NUL). -/
def psPrefix : List Nat :=
  [80, 104, 111, 116, 111, 115, 104, 111, 112, 32, 51, 46, 48, 0]

/-- The scan loop of `extractJPEGSegment`: walk marker segments, return
the payload (after the wanted payload start `pfx`) of the first segment
with the wanted marker carrying it; stop at SOS or at any malformed
header. -/
def extractJPEGLoop (fuel : Nat) (buf : List Nat) (marker : Nat)
    (pfx : List Nat) : Option (List Nat) :=
  match fuel with
  | 0 => none
  | fuel + 1 =>
    match buf with
    | b0 :: b1 :: rest =>
      if b0 ≠ 0xFF then none
      else
        if 2 ≤ rest.length then
          let segLen := beVal (rest.take 2)
          if 2 ≤ segLen then
            if segLen - 2 ≤ (rest.drop 2).length then
              let seg := (rest.drop 2).take (segLen - 2)
              if b1 = marker ∧ pfx = seg.take pfx.length then
                some (seg.drop pfx.length)
              else if b1 = 0xDA then none
              else extractJPEGLoop fuel ((rest.drop 2).drop (segLen - 2)) marker pfx
            else none
          else none
        else none
    | _ => none

/-- `extractJPEGSegment`: SOI check, then the scan loop. -/
def extractJPEGSegment (data : List Nat) (marker : Nat) (pfx : List Nat) :
    Option (List Nat) :=
  match data with
  | 0xFF :: 0xD8 :: rest => extractJPEGLoop data.length rest marker pfx
  | _ => none

/-- `core.MetaField`. -/
structure MetaFieldB where
  key      : List Nat
  value    : List Nat
  category : List Nat
  editable : Bool
deriving DecidableEq, Repr

/-- `viewJPEG`, parameterized over the behavior of the external EXIF and
text parsers it calls (`goexif` for EXIF, `encoding/xml` for XMP, and the
IPTC dataset walk): whatever fields those stages contribute, the function
appends them and returns with a `nil` error — it has no failure path once
the file is readable. -/
def viewJPEG (exifView xmpView iptcView : List Nat → List MetaFieldB)
    (data : List Nat) : List MetaFieldB × Option MediaErr :=
  let xmpPart := match extractJPEGSegment data 0xE1 xmpPrefix with
    | some seg => if 0 < seg.length then xmpView seg else []
    | none => []
  let iptcPart := match extractJPEGSegment data 0xED psPrefix with
    | some seg => if 0 < seg.length then iptcView seg else []
    | none => []
  (exifView data ++ xmpPart ++ iptcPart, none)

/-- Little-endian 2-byte encoding (Go `binary.Write` of a `uint16`). -/
def le16 (n : Nat) : List Nat := [n % 256, n / 256 % 256]

/-- The `exifTagIDs` table of editable EXIF string fields. -/
def exifTagIDs : List (List Nat × Nat) :=
  [([73, 109, 97, 103, 101, 68, 101, 115, 99, 114, 105, 112, 116, 105, 111, 110], 0x010E),
   ([77, 97, 107, 101], 0x010F),
   ([77, 111, 100, 101, 108], 0x0110),
   ([83, 111, 102, 116, 119, 97, 114, 101], 0x0131),
   ([68, 97, 116, 101, 84, 105, 109, 101], 0x0132),
   ([65, 114, 116, 105, 115, 116], 0x013B),
   ([67, 111, 112, 121, 114, 105, 103, 104, 116], 0x8298),
   ([85, 115, 101, 114, 67, 111, 109, 109, 101, 110, 116], 0x9286),
   ([68, 97, 116, 101, 84, 105, 109, 101, 79, 114, 105, 103, 105, 110, 97, 108], 0x9003),
   ([68, 97, 116, 101, 84, 105, 109, 101, 68, 105, 103, 105, 116, 105, 122, 101, 100], 0x9004)]

/-- The IFD entry/value accumulation of `buildMinimalEXIF`: each ASCII
entry is 12 bytes; values longer than 4 bytes (with their NUL) go to the
value area behind the IFD and are referenced by offset. -/
def exifIfdFold (valOffset : Nat) (entries : List (Nat × List Nat)) :
    List Nat × List Nat :=
  entries.foldl
    (fun acc e =>
      let val := e.2 ++ [0]
      let entry := le16 e.1 ++ le16 2 ++ le32 val.length
      if val.length ≤ 4 then
        (acc.1 ++ entry ++ (val ++ List.replicate (4 - val.length) 0), acc.2)
      else
        (acc.1 ++ entry ++ le32 (valOffset + acc.2.length), acc.2 ++ val))
    ([], [])

/-- `buildMinimalEXIF`: keep only fields with a known tag id (error when
none survives), then a little-endian TIFF block with one IFD of ASCII
entries. -/
def buildMinimalEXIF (fields : List (List Nat × List Nat)) : Except MediaErr (List Nat) :=
  let entries := fields.filterMap fun p =>
    (exifTagIDs.find? (fun t => decide (t.1 = p.1))).map fun t => (t.2, p.2)
  if entries.length = 0 then .error .noFields
  else
    let ifdSize := 2 + entries.length * 12 + 4
    let acc := exifIfdFold (8 + ifdSize) entries
    .ok (exifMagic ++ [73, 73, 0x2A, 0, 8, 0, 0, 0]
      ++ le16 entries.length ++ acc.1 ++ le32 0 ++ acc.2)

/-- `patchEXIFSegment`, parameterized over the external EXIF string walk:
short segments pass through; otherwise merge the walked fields with `set`
and `del` and rebuild via `buildMinimalEXIF`. -/
def patchEXIFSegment (exifFields : List Nat → List (List Nat × List Nat))
    (data : List Nat) (set : List (List Nat × List Nat)) (del : List (List Nat)) :
    Except MediaErr (List Nat) :=
  if data.length < 8 then .ok data
  else
    let m1 := set.foldl (fun acc p => mapSet acc p.1 p.2) (exifFields (data.drop 6))
    let m2 := del.foldl (fun acc k => mapDel acc k) m1
    buildMinimalEXIF m2

/-- `editJPEG`, parameterized over the external EXIF walk: parse segments
(hard failure off-format), create or patch the EXIF APP1 segment, then
either stop before writing (`dryRun`) or emit the rebuilt stream. -/
def editJPEG (exifFields : List Nat → List (List Nat × List Nat))
    (data : List Nat) (opts : EditOpts) : Except MediaErr (Option (List Nat)) :=
  match parseJPEGSegments data with
  | .error e => .error e
  | .ok segments =>
    match segments.findIdx?
        (fun s => decide (s.marker = 0xE1) && decide (s.data.take 6 = exifMagic)) with
    | none =>
      if 0 < opts.set.length then
        match buildMinimalEXIF opts.set with
        | .error e => .error e
        | .ok newData =>
          match segments with
          | [] => .error .indexOutOfRange
          | s0 :: rest =>
            if opts.dryRun then .ok none
            else .ok (some (writeJPEGSegments (s0 :: ⟨0xE1, newData⟩ :: rest)))
      else
        if opts.dryRun then .ok none
        else .ok (some (writeJPEGSegments segments))
    | some i =>
      match patchEXIFSegment exifFields ((segments.getD i ⟨0, []⟩).data)
          opts.set opts.del with
      | .error e => .error e
      | .ok updated =>
        let segs2 := segments.set i { segments.getD i ⟨0, []⟩ with data := updated }
        if opts.dryRun then .ok none
        else .ok (some (writeJPEGSegments segs2))

/-- Byte spelling of the RIFF chunk id LIST. -/
def listTy : List Nat := [76, 73, 83, 84]

/-- Byte spelling of the RIFF chunk id `id3 `. -/
def id3LoTy : List Nat := [105, 100, 51, 32]

/-- Byte spelling of the RIFF chunk id `ID3 `. -/
def id3HiTy : List Nat := [73, 68, 51, 32]

/-- Byte spelling of RIFF. -/
def riffTy : List Nat := [82, 73, 70, 70]

/-- Byte spelling of WAVE. -/
def waveTy : List Nat := [87, 65, 86, 69]

/-- Byte spelling of the chunk id `fmt `. -/
def fmtTy : List Nat := [102, 109, 116, 32]

/-- Byte spelling of the chunk id `data`. -/
def dataTy : List Nat := [100, 97, 116, 97]

/-- The chunk loop of `stripWAV`: copy the 8-byte header and payload of
every chunk that is not `LIST`/`id3 `/`ID3 `, then step over the payload
and over the padding byte after an odd payload — the padding byte is
skipped but never copied to the output. -/
def stripWAVLoop (fuel : Nat) (buf : List Nat) : List Nat :=
  match fuel with
  | 0 => []
  | fuel + 1 =>
    if 8 ≤ buf.length then
      let cid := buf.take 4
      let csize := leVal ((buf.drop 4).take 4)
      if csize ≤ (buf.drop 8).length then
        let keep := ¬(cid = listTy ∨ cid = id3LoTy ∨ cid = id3HiTy)
        (if keep then buf.take (8 + csize) else [])
          ++ stripWAVLoop fuel ((buf.drop 8).drop (csize + csize % 2))
      else []
    else []

/-- `stripWAV`: length check, the chunk loop over everything after the
12-byte RIFF/WAVE header, and a rebuilt RIFF header with a recomputed
size. -/
def stripWAVBytes (data : List Nat) : Except MediaErr (List Nat) :=
  if data.length < 12 then .error .truncated
  else
    let body := stripWAVLoop data.length (data.drop 12)
    .ok (riffTy ++ le32 (body.length + 4) ++ waveTy ++ body)

/-! Concrete demonstration inputs. -/

/-- A minimal ftyp atom. -/
def ftypAtomDemo : List Nat := packAtom [102, 116, 121, 112] [1, 2, 3, 4]

/-- An ilst atom holding one `©nam` entry with value `Old`. -/
def ilstAtomDemo : List Nat :=
  packAtom ilstTy (ilstEntryBytes ⟨[0xA9, 110, 97, 109], [79, 108, 100]⟩)

/-- The surrounding meta atom (4-byte version/flags prefix). -/
def metaAtomDemo : List Nat := packAtom metaTy ([0, 0, 0, 0] ++ ilstAtomDemo)

/-- The surrounding udta atom. -/
def udtaAtomDemo : List Nat := packAtom udtaTy metaAtomDemo

/-- The surrounding moov atom. -/
def moovAtomDemo : List Nat := packAtom moovTy udtaAtomDemo

/-- A minimal well-formed MP4 buffer: ftyp then moov/udta/meta/ilst with
one `©nam=Old` entry. -/
def mp4Demo : List Nat := ftypAtomDemo ++ moovAtomDemo

/-- `edit(set={"title":"Wonder"})`: the replacement value is three bytes
longer than `Old`. -/
def c1Opts : EditOpts :=
  ⟨[([116, 105, 116, 108, 101], [87, 111, 110, 100, 101, 114])], [], false⟩

/-- The buffer `editMP4` produces for `c1Opts` on `mp4Demo`. -/
def c1Out : List Nat :=
  match editMP4 mp4Demo c1Opts with
  | .ok (some o) => o
  | _ => []

/-- `edit(set={"artist":"New"})`: an edit that names neither `title` nor
`©nam`. -/
def c2Opts : EditOpts :=
  ⟨[([97, 114, 116, 105, 115, 116], [78, 101, 119])], [], false⟩

/-- The buffer `editMP4` produces for `c2Opts` on `mp4Demo`. -/
def c2Out : List Nat :=
  match editMP4 mp4Demo c2Opts with
  | .ok (some o) => o
  | _ => []

/-- Claim C1: the spec requires that an edit changing the ilst subtree
length by Δ bytes rewrites every ancestor length field (meta, udta, moov)
by exactly Δ.  The code's `fixMP4Sizes` is an explicit no-op, so after an
edit that grows the ilst by Δ = 3 bytes the declared moov/udta/meta sizes
in the output (at offsets 12, 20, 28 of this buffer) still carry their old
values: the invariant the spec states is not established by the code. -/
theorem C1_mp4_ancestor_sizes_not_rewritten :
    (∀ d : List Nat, fixMP4Sizes d = d) ∧
    editMP4 mp4Demo c1Opts = .ok (some c1Out) ∧
    c1Out.length = mp4Demo.length + 3 ∧
    beVal ((mp4Demo.drop 12).take 4) = 63 ∧ beVal ((c1Out.drop 12).take 4) = 63 ∧
    beVal ((mp4Demo.drop 20).take 4) = 55 ∧ beVal ((c1Out.drop 20).take 4) = 55 ∧
    beVal ((mp4Demo.drop 28).take 4) = 47 ∧ beVal ((c1Out.drop 28).take 4) = 47 := by
  refine ⟨fun d => rfl, ?_, ?_, ?_, ?_, ?_, ?_, ?_, ?_⟩ <;> decide

/-- Claim C2 (counterexample): `mp4Demo` holds `©nam=Old`; the edit
`set={"artist":"New"}` names neither that field's key nor its atom, yet
the output no longer contains the `©nam` atom at all — the existing field
is not preserved. -/
theorem C2_existing_field_dropped :
    editMP4 mp4Demo c2Opts = .ok (some c2Out) ∧
    indexOfSeq [0xA9, 110, 97, 109] mp4Demo = some 52 ∧
    indexOfSeq [0xA9, 110, 97, 109] c2Out = none := by
  refine ⟨?_, ?_, ?_⟩ <;> decide

theorem packAtom_fourByte (name content : List Nat) (h : name.length = 4) :
    packAtom name content = be32 (8 + content.length) ++ name ++ content := by
  unfold packAtom
  rw [← h, List.take_length, h]
  simp

/-- Claim C2 (amended): `patchMP4Ilst` performs wholesale replacement.  On
a buffer whose first occurrence of the `ilst` pattern is a genuine ilst
atom, the whole atom — existing fields included — is replaced by an atom
built solely from the `set` entries, and the `delKeys` argument has no
effect on the result. -/
theorem C2_amended_ilst_wholesale_replacement
    (pre oldContent suf : List Nat) (entries : List MP4Entry)
    (delKeys delKeys' : List (List Nat))
    (hidx : indexOfSeq ilstTy (pre ++ packAtom ilstTy oldContent ++ suf)
      = some (pre.length + 4))
    (hpre : 0 < pre.length)
    (hsz : 8 + oldContent.length < 2 ^ 32) :
    patchMP4Ilst (pre ++ packAtom ilstTy oldContent ++ suf) entries delKeys
      = .ok (pre ++ packAtom ilstTy (ilstContentOf entries) ++ suf) ∧
    patchMP4Ilst (pre ++ packAtom ilstTy oldContent ++ suf) entries delKeys
      = patchMP4Ilst (pre ++ packAtom ilstTy oldContent ++ suf) entries delKeys' := by
  refine ⟨?_, rfl⟩
  have hpk : packAtom ilstTy oldContent
      = be32 (8 + oldContent.length) ++ ilstTy ++ oldContent :=
    packAtom_fourByte _ _ rfl
  have hlenpk : (packAtom ilstTy oldContent).length = 8 + oldContent.length := by
    rw [hpk]
    simp [be32_length, ilstTy]
    omega
  have hdroppre : (pre ++ packAtom ilstTy oldContent ++ suf).drop pre.length
      = packAtom ilstTy oldContent ++ suf := by
    rw [List.append_assoc]
    exact List.drop_left _ _
  have htake4 : ((pre ++ packAtom ilstTy oldContent ++ suf).drop pre.length).take 4
      = be32 (8 + oldContent.length) := by
    rw [hdroppre, hpk, List.append_assoc, List.append_assoc]
    exact List.take_left' (be32_length _)
  have htakepre : (pre ++ packAtom ilstTy oldContent ++ suf).take pre.length = pre := by
    rw [List.append_assoc]
    exact List.take_left _ _
  have hdropall : (pre ++ packAtom ilstTy oldContent ++ suf).drop
      (pre.length + (8 + oldContent.length)) = suf := by
    rw [← List.drop_drop, hdroppre, ← hlenpk]
    exact List.drop_left _ _
  have hlen : pre.length + (8 + oldContent.length)
      ≤ (pre ++ packAtom ilstTy oldContent ++ suf).length := by
    simp only [List.length_append, hlenpk]
    omega
  unfold patchMP4Ilst
  rw [hidx]
  dsimp only
  simp only [Nat.add_sub_cancel]
  rw [htake4, beVal_be32 _ hsz]
  rw [if_pos (by omega : 4 < pre.length + 4)]
  rw [if_pos hlen, htakepre, hdropall]
  unfold fixMP4Sizes
  rw [packAtom_fourByte ilstTy (ilstContentOf entries) (by rfl)]

/-- Claim C10: stored CRC bytes have no influence — serializing the same
chunks under any two CRC assignments decodes identically, so Edit and
Strip agree on the two buffers; and every chunk the encoder emits carries
a CRC recomputed over its type and payload. -/
theorem C10_png_stored_crc_has_no_influence
    (cs₁ cs₂ : List (PngChunk × Nat))
    (hsame : cs₁.map (·.1) = cs₂.map (·.1))
    (hgood : ∀ p ∈ cs₁, GoodChunk p.1)
    (hiend : NoEarlyIend (cs₁.map (·.1))) :
    readPNGChunks (writePNGStream cs₁) = readPNGChunks (writePNGStream cs₂) ∧
    (∀ opts, editPNG (writePNGStream cs₁) opts = editPNG (writePNGStream cs₂) opts) ∧
    (∀ opts, stripPNG (writePNGStream cs₁) opts = stripPNG (writePNGStream cs₂) opts) ∧
    (∀ c : PngChunk, writePNGChunk c
      = be32 c.data.length ++ c.typ ++ c.data ++ be32 (crc32PNG c.typ c.data)) := by
  have hgood2 : ∀ p ∈ cs₂, GoodChunk p.1 := by
    intro p hp
    have hm : p.1 ∈ cs₂.map (·.1) := List.mem_map_of_mem _ hp
    rw [← hsame] at hm
    obtain ⟨q, hq, hqe⟩ := List.mem_map.mp hm
    have := hgood q hq
    rwa [hqe] at this
  have h1 := readPNGChunks_stream cs₁ hgood hiend
  have h2 := readPNGChunks_stream cs₂ hgood2 (hsame ▸ hiend)
  have hparse : readPNGChunks (writePNGStream cs₁) = readPNGChunks (writePNGStream cs₂) := by
    rw [h1, h2, hsame]
  refine ⟨hparse, ?_, ?_, fun c => rfl⟩
  · intro opts
    unfold editPNG
    rw [hparse]
  · intro opts
    unfold stripPNG
    rw [hparse]

/-- No bytes are emitted for writing: the edit result is a dry-run `none`
or an error, never an output buffer. -/
def NoWrite (r : Except MediaErr (Option (List Nat))) : Prop :=
  ∀ out, r ≠ .ok (some out)

/-- Claim C8: with `dryRun` set, each edit path returns before its write
step — the result never carries an output buffer, whatever the input
bytes, the requested changes, or the behavior of the external EXIF
walker. -/
theorem C8_dryRun_writes_nothing (buf : List Nat) (opts : EditOpts)
    (exifFields : List Nat → List (List Nat × List Nat))
    (h : opts.dryRun = true) :
    NoWrite (editPNG buf opts) ∧ NoWrite (editFLAC buf opts) ∧
      NoWrite (editJPEG exifFields buf opts) ∧ NoWrite (editMP4 buf opts) := by
  refine ⟨?_, ?_, ?_, ?_⟩
  · intro out hc
    cases hr : readPNGChunks buf with
    | none => simp [editPNG, hr] at hc
    | some cs => simp [editPNG, hr, h] at hc
  · intro out hc
    by_cases hm : buf.take 4 = fLaCMagic
    · simp [editFLAC, hm, h] at hc
    · simp [editFLAC, hm] at hc
  · intro out hc
    cases hp : parseJPEGSegments buf with
    | error e => simp [editJPEG, hp] at hc
    | ok segments =>
      cases hf : segments.findIdx?
          (fun s => decide (s.marker = 0xE1) && decide (s.data.take 6 = exifMagic)) with
      | none =>
        by_cases hs : 0 < opts.set.length
        · cases hb : buildMinimalEXIF opts.set with
          | error e => simp [editJPEG, hp, hf, hs, hb] at hc
          | ok newData =>
            cases segments with
            | nil => simp [editJPEG, hp, hf, hs, hb] at hc
            | cons s0 rest => simp [editJPEG, hp, hf, hs, hb, h] at hc
        · simp [editJPEG, hp, hf, hs, h] at hc
      | some i =>
        cases hq : patchEXIFSegment exifFields ((segments[i]?.getD ⟨0, []⟩).data)
            opts.set opts.del with
        | error e => simp [editJPEG, hp, hf, List.getD, hq] at hc
        | ok updated => simp [editJPEG, hp, hf, List.getD, hq, h] at hc
  · intro out hc
    simp [editMP4, h] at hc

/-- Witness for C8 at a concrete input. -/
theorem C8_dryRun_writes_nothing_witness :
    NoWrite (editPNG [] ⟨[], [], true⟩) ∧ NoWrite (editFLAC [] ⟨[], [], true⟩) ∧
      NoWrite (editJPEG (fun _ => []) [] ⟨[], [], true⟩) ∧
      NoWrite (editMP4 [] ⟨[], [], true⟩) :=
  C8_dryRun_writes_nothing [] ⟨[], [], true⟩ (fun _ => []) rfl

/-- Witness for the amended C2 at a concrete input. -/
theorem C2_amended_ilst_wholesale_replacement_witness :
    patchMP4Ilst ([9, 9, 9, 9, 9] ++ packAtom ilstTy [1, 2, 3] ++ [7])
        [⟨[0xA9, 65, 82, 84], [78, 101, 119]⟩] [[88]]
      = .ok ([9, 9, 9, 9, 9]
          ++ packAtom ilstTy (ilstContentOf [⟨[0xA9, 65, 82, 84], [78, 101, 119]⟩]) ++ [7]) ∧
    patchMP4Ilst ([9, 9, 9, 9, 9] ++ packAtom ilstTy [1, 2, 3] ++ [7])
        [⟨[0xA9, 65, 82, 84], [78, 101, 119]⟩] [[88]]
      = patchMP4Ilst ([9, 9, 9, 9, 9] ++ packAtom ilstTy [1, 2, 3] ++ [7])
        [⟨[0xA9, 65, 82, 84], [78, 101, 119]⟩] [] :=
  C2_amended_ilst_wholesale_replacement [9, 9, 9, 9, 9] [1, 2, 3] [7]
    [⟨[0xA9, 65, 82, 84], [78, 101, 119]⟩] [[88]] []
    (by decide) (by decide) (by decide)

/-- Witness for C10 at a concrete input: the same IEND chunk stored with
two different CRC values. -/
theorem C10_png_stored_crc_has_no_influence_witness :
    readPNGChunks (writePNGStream [(⟨iendTy, []⟩, 0)])
      = readPNGChunks (writePNGStream [(⟨iendTy, []⟩, 999)]) ∧
    (∀ opts, editPNG (writePNGStream [(⟨iendTy, []⟩, 0)]) opts
      = editPNG (writePNGStream [(⟨iendTy, []⟩, 999)]) opts) ∧
    (∀ opts, stripPNG (writePNGStream [(⟨iendTy, []⟩, 0)]) opts
      = stripPNG (writePNGStream [(⟨iendTy, []⟩, 999)]) opts) ∧
    (∀ c : PngChunk, writePNGChunk c
      = be32 c.data.length ++ c.typ ++ c.data ++ be32 (crc32PNG c.typ c.data)) :=
  C10_png_stored_crc_has_no_influence [(⟨iendTy, []⟩, 0)] [(⟨iendTy, []⟩, 999)]
    (by decide) (by decide) (by decide)

/-- Claim C5 (counterexample): a JPEG-flavor View on the one-byte buffer
`[0]` — which does not start with the SOI marker — returns an empty field
list with no error, not a `NotThisFormat` failure.  The three parameters
stand for the external EXIF/XMP/IPTC stages; on this buffer the XMP and
IPTC stages are bypassed by `extractJPEGSegment`'s failed SOI check, and
the external EXIF decoder fails on a buffer that is neither JPEG nor TIFF,
so `fun _ => []` is its faithful instantiation — and the error component is
`none` no matter what the stages return. -/
theorem C5_viewJPEG_partial_success_on_bad_magic :
    viewJPEG (fun _ => []) (fun _ => []) (fun _ => []) [0] = ([], none) := by
  decide

/-- Claim C5 (amended): Edit and Strip reject a magic mismatch as a hard
`NotThisFormat` failure (JPEG via `parseJPEGSegments`, PNG via the
signature check, FLAC via the `fLaC` check), but the JPEG View path never
returns an error: on a buffer whose magic does not match it yields a
partial success — an empty field list with no error. -/
theorem C5_amended_edit_strip_reject_view_soft :
    (∀ data : List Nat, data.take 2 ≠ [0xFF, 0xD8] →
      parseJPEGSegments data = .error .notThisFormat) ∧
    (∀ data opts, data.take 8 ≠ pngSig → editPNG data opts = .error .notThisFormat) ∧
    (∀ data opts, data.take 8 ≠ pngSig → stripPNG data opts = .error .notThisFormat) ∧
    (∀ data opts, data.take 4 ≠ fLaCMagic → editFLAC data opts = .error .notThisFormat) ∧
    (∀ ef xf pf data, (viewJPEG ef xf pf data).2 = none) := by
  refine ⟨?_, ?_, ?_, ?_, fun ef xf pf data => rfl⟩
  · intro data h
    unfold parseJPEGSegments
    split
    · exact absurd (by rfl) h
    · rfl
  · intro data opts h
    simp [editPNG, readPNGChunks, h]
  · intro data opts h
    simp [stripPNG, readPNGChunks, h]
  · intro data opts h
    simp [editFLAC, h]

/-- Witness for the amended C5 at concrete inputs. -/
theorem C5_amended_edit_strip_reject_view_soft_witness :
    parseJPEGSegments [0] = .error .notThisFormat ∧
    editPNG [0] ⟨[], [], false⟩ = .error .notThisFormat ∧
    stripPNG [0] ⟨[], false, true⟩ = .error .notThisFormat ∧
    editFLAC [0] ⟨[], [], false⟩ = .error .notThisFormat ∧
    (viewJPEG (fun _ => []) (fun _ => []) (fun _ => []) [0]).2 = none :=
  ⟨C5_amended_edit_strip_reject_view_soft.1 [0] (by decide),
   C5_amended_edit_strip_reject_view_soft.2.1 [0] ⟨[], [], false⟩ (by decide),
   C5_amended_edit_strip_reject_view_soft.2.2.1 [0] ⟨[], false, true⟩ (by decide),
   C5_amended_edit_strip_reject_view_soft.2.2.2.1 [0] ⟨[], [], false⟩ (by decide),
   C5_amended_edit_strip_reject_view_soft.2.2.2.2 _ _ _ [0]⟩

/-! General lemmas about the `editPNG` chunk transformation. -/

/-- A tEXt chunk whose keyword is `K`. -/
def isKChunk (K : List Nat) (c : PngChunk) : Bool :=
  decide (c.typ = tEXtTy) && decide (pngKeyOf c.data = some K)

/-- A tEXt chunk whose keyword is in the delete list. -/
def isDelChunk (del : List (List Nat)) (c : PngChunk) : Bool :=
  decide (c.typ = tEXtTy) &&
    (match pngKeyOf c.data with
     | some k => delMem del k
     | none => false)

theorem editPNGPass_cons (set : List (List Nat × List Nat)) (del : List (List Nat))
    (c : PngChunk) (rest : List PngChunk) :
    editPNGPass set del (c :: rest)
      = if c.typ = tEXtTy then
          match pngKeyOf c.data with
          | some k =>
            if delMem del k then editPNGPass set del rest
            else
              match setLookup set k with
              | some v => ⟨tEXtTy, k ++ 0 :: v⟩ :: editPNGPass set del rest
              | none => c :: editPNGPass set del rest
          | none => c :: editPNGPass set del rest
        else c :: editPNGPass set del rest := rfl

theorem setLookup_single (K V k : List Nat) :
    setLookup [(K, V)] k = if K = k then some V else none := by
  by_cases h : K = k
  · simp [setLookup, List.find?_cons, h]
  · simp [setLookup, List.find?_cons, h]

theorem editPNGPass_set_map (K V : List Nat) (cs : List PngChunk) :
    editPNGPass [(K, V)] [] cs
      = cs.map fun c => if isKChunk K c then ⟨tEXtTy, K ++ 0 :: V⟩ else c := by
  induction cs with
  | nil => rfl
  | cons c rest ih =>
    rw [editPNGPass_cons]
    by_cases ht : c.typ = tEXtTy
    · rw [if_pos ht]
      cases hk : pngKeyOf c.data with
      | none =>
        rw [ih]
        simp [List.map_cons, isKChunk, hk]
      | some k =>
        dsimp only
        rw [show delMem [] k = false from rfl]
        rw [if_neg (by simp)]
        rw [setLookup_single]
        by_cases hKk : K = k
        · subst hKk
          rw [if_pos rfl, ih]
          simp [List.map_cons, isKChunk, ht, hk]
        · rw [if_neg hKk, ih]
          have : ¬(k = K) := fun he => hKk he.symm
          simp [List.map_cons, isKChunk, hk, this]
    · rw [if_neg ht, ih]
      simp [List.map_cons, isKChunk, ht]

theorem editPNGPass_del_filter (del : List (List Nat)) (cs : List PngChunk) :
    editPNGPass [] del cs = cs.filter fun c => !(isDelChunk del c) := by
  induction cs with
  | nil => rfl
  | cons c rest ih =>
    rw [editPNGPass_cons]
    by_cases ht : c.typ = tEXtTy
    · rw [if_pos ht]
      cases hk : pngKeyOf c.data with
      | none =>
        rw [ih]
        simp [List.filter_cons, isDelChunk, hk]
      | some k =>
        dsimp only
        by_cases hd : delMem del k = true
        · rw [hd]
          rw [if_pos rfl]
          rw [ih]
          simp [List.filter_cons, isDelChunk, ht, hk, hd]
        · rw [show delMem del k = false from by simpa using hd]
          rw [if_neg (by simp)]
          rw [show setLookup [] k = none from rfl]
          dsimp only
          rw [ih]
          simp [List.filter_cons, isDelChunk, hk, hd]
    · rw [if_neg ht, ih]
      simp [List.filter_cons, isDelChunk, ht]

theorem pngChunkDone_any (K : List Nat) (cs : List PngChunk) :
    pngChunkDone [] cs K = cs.any (isKChunk K) := by
  unfold pngChunkDone
  induction cs with
  | nil => rfl
  | cons c rest ih =>
    simp only [List.any_cons]
    rw [← ih]
    congr 1
    cases hk : pngKeyOf c.data with
    | none => simp [isKChunk, hk]
    | some k => simp [isKChunk, hk, delMem, eq_comm]

theorem insertBeforeIDAT_nil (l : List PngChunk) : insertBeforeIDAT [] l = l := by
  induction l with
  | nil => rfl
  | cons c rest ih =>
    unfold insertBeforeIDAT
    by_cases h : c.typ = idatTy
    · rw [if_pos h]
      rfl
    · rw [if_neg h, ih]

/-! Claim C3 - the PNG tEXt edit scenario. -/

/-- The tEXt keyword `Author`. -/
def authorKey : List Nat := [65, 117, 116, 104, 111, 114]

/-- The tEXt chunk `Author\x00Alice`. -/
def authorAliceChunk : PngChunk := ⟨tEXtTy, authorKey ++ 0 :: [65, 108, 105, 99, 101]⟩

/-- The tEXt chunk `Author\x00Bob`. -/
def authorBobChunk : PngChunk := ⟨tEXtTy, authorKey ++ 0 :: [66, 111, 98]⟩

/-- `edit(set={"Author":"Bob"})`. -/
def authorBobOpts : EditOpts := ⟨[(authorKey, [66, 111, 98])], [], false⟩

theorem writePNGChunks_length (cs : List PngChunk)
    (hgood : ∀ c ∈ cs, c.typ.length = 4) :
    (writePNGChunks cs).length = 8 + (cs.map fun c => 12 + c.data.length).sum := by
  induction cs with
  | nil => rfl
  | cons c rest ih =>
    have ht := hgood c (List.mem_cons_self c rest)
    have ih2 := ih fun x hx => hgood x (List.mem_cons_of_mem _ hx)
    simp only [writePNGChunks, List.map_cons, List.flatten_cons, List.length_append] at ih2 ⊢
    simp only [writePNGChunk, writePNGChunkCRC, List.length_append, be32_length,
      List.sum_cons, ht]
    omega

theorem onlyTeXt_of_filter_single (cs : List PngChunk) (a : PngChunk)
    (honce : cs.filter (fun c => decide (c.typ = tEXtTy)) = [a]) :
    a ∈ cs ∧ ∀ c ∈ cs, c.typ = tEXtTy → c = a := by
  constructor
  · refine List.mem_of_mem_filter (p := fun c => decide (c.typ = tEXtTy)) ?_
    rw [honce]
    exact List.mem_singleton.mpr rfl
  · intro c hc ht
    have hm : c ∈ cs.filter (fun c => decide (c.typ = tEXtTy)) :=
      List.mem_filter.mpr ⟨hc, by simpa using ht⟩
    rw [honce] at hm
    exact List.mem_singleton.mp hm

theorem noTeXt_of_filter_nil (cs : List PngChunk)
    (h : cs.filter (fun c => decide (c.typ = tEXtTy)) = []) :
    ∀ c ∈ cs, ¬(c.typ = tEXtTy) := by
  intro x hx hxt
  have hm : x ∈ cs.filter (fun c => decide (c.typ = tEXtTy)) :=
    List.mem_filter.mpr ⟨hx, by simpa using hxt⟩
  rw [h] at hm
  simp at hm

theorem filter_map_update (cs : List PngChunk)
    (honce : cs.filter (fun c => decide (c.typ = tEXtTy)) = [authorAliceChunk]) :
    (cs.map fun c => if c.typ = tEXtTy then authorBobChunk else c).filter
      (fun c => decide (c.typ = tEXtTy)) = [authorBobChunk] := by
  induction cs with
  | nil => simp at honce
  | cons c rest ih =>
    by_cases ht : c.typ = tEXtTy
    · rw [List.filter_cons_of_pos (by simpa using ht)] at honce
      have hrest : rest.filter (fun c => decide (c.typ = tEXtTy)) = [] := by
        injection honce
      have hnone := noTeXt_of_filter_nil rest hrest
      simp only [List.map_cons, if_pos ht]
      rw [List.filter_cons_of_pos (by decide)]
      congr 1
      rw [List.filter_eq_nil_iff]
      intro x hx
      obtain ⟨y, hy, rfl⟩ := List.mem_map.mp hx
      rw [if_neg (hnone y hy)]
      simpa using hnone y hy
    · rw [List.filter_cons_of_neg (by simpa using ht)] at honce
      simp only [List.map_cons, if_neg ht]
      rw [List.filter_cons_of_neg (by simpa using ht)]
      exact ih honce

theorem sum_map_update (cs : List PngChunk)
    (honce : cs.filter (fun c => decide (c.typ = tEXtTy)) = [authorAliceChunk]) :
    ((cs.map fun c => if c.typ = tEXtTy then authorBobChunk else c).map
      (fun c => 12 + c.data.length)).sum + 2
      = (cs.map fun c => 12 + c.data.length).sum := by
  induction cs with
  | nil => simp at honce
  | cons c rest ih =>
    by_cases ht : c.typ = tEXtTy
    · rw [List.filter_cons_of_pos (by simpa using ht)] at honce
      have hc : c = authorAliceChunk := by injection honce
      have hrest : rest.filter (fun c => decide (c.typ = tEXtTy)) = [] := by
        injection honce
      have hnone := noTeXt_of_filter_nil rest hrest
      have hmaprest : rest.map (fun c => if c.typ = tEXtTy then authorBobChunk else c)
          = rest := by
        have h1 : rest.map (fun c => if c.typ = tEXtTy then authorBobChunk else c)
            = rest.map id :=
          List.map_congr_left fun x hx => if_neg (hnone x hx)
        rw [h1, List.map_id]
      subst hc
      have ha : authorAliceChunk.data.length = 12 := rfl
      have hb : authorBobChunk.data.length = 10 := rfl
      simp only [List.map_cons, if_pos ht, hmaprest, List.sum_cons]
      omega
    · rw [List.filter_cons_of_neg (by simpa using ht)] at honce
      simp only [List.map_cons, if_neg ht, List.sum_cons]
      have := ih honce
      omega

/-- Claim C3: on a PNG whose only tEXt chunk is `Author\x00Alice`, the edit
`set={"Author":"Bob"}` rewrites exactly that chunk's payload: the output
is the same chunk list with `Author\x00Bob` in place, it again has exactly
one tEXt chunk, the whole file shrinks by exactly the value-length delta
(2 bytes), the freshly computed CRC of the rewritten chunk differs from
the input's stored CRC, and every IDAT/IEND chunk reappears with its
serialization untouched. -/
theorem C3_png_text_edit (cs : List PngChunk)
    (hgood : ∀ c ∈ cs, GoodChunk c)
    (hiend : NoEarlyIend cs)
    (honce : cs.filter (fun c => decide (c.typ = tEXtTy)) = [authorAliceChunk]) :
    editPNG (writePNGChunks cs) authorBobOpts
      = .ok (some (writePNGChunks
          (cs.map fun c => if c.typ = tEXtTy then authorBobChunk else c))) ∧
    (cs.map fun c => if c.typ = tEXtTy then authorBobChunk else c).filter
      (fun c => decide (c.typ = tEXtTy)) = [authorBobChunk] ∧
    (writePNGChunks
        (cs.map fun c => if c.typ = tEXtTy then authorBobChunk else c)).length + 2
      = (writePNGChunks cs).length ∧
    crc32PNG tEXtTy authorBobChunk.data ≠ crc32PNG tEXtTy authorAliceChunk.data ∧
    (∀ c ∈ cs, (c.typ = idatTy ∨ c.typ = iendTy) →
      c ∈ (cs.map fun c => if c.typ = tEXtTy then authorBobChunk else c)) := by
  obtain ⟨hmem, hall⟩ := onlyTeXt_of_filter_single cs authorAliceChunk honce
  have hmapeq : (cs.map fun c =>
        if isKChunk authorKey c then ⟨tEXtTy, authorKey ++ 0 :: [66, 111, 98]⟩ else c)
      = cs.map fun c => if c.typ = tEXtTy then authorBobChunk else c := by
    apply List.map_congr_left
    intro c hc
    by_cases ht : c.typ = tEXtTy
    · have hca := hall c hc ht
      subst hca
      rw [if_pos (by decide), if_pos ht]
      rfl
    · rw [if_neg (by simp [isKChunk, ht]), if_neg ht]
  have hchunks : editPNGChunks authorBobOpts cs
      = cs.map fun c => if c.typ = tEXtTy then authorBobChunk else c := by
    unfold editPNGChunks
    have hdone : pngChunkDone [] cs authorKey = true := by
      rw [pngChunkDone_any]
      exact List.any_eq_true.mpr ⟨authorAliceChunk, hmem, by decide⟩
    have hadd : pngAddChunks authorBobOpts.set authorBobOpts.del cs = [] := by
      unfold pngAddChunks
      rw [show authorBobOpts.set = [(authorKey, [66, 111, 98])] from rfl]
      rw [show authorBobOpts.del = ([] : List (List Nat)) from rfl]
      rw [List.filter_cons]
      simp [hdone]
    rw [hadd, insertBeforeIDAT_nil]
    rw [show authorBobOpts.set = [(authorKey, [66, 111, 98])] from rfl]
    rw [show authorBobOpts.del = ([] : List (List Nat)) from rfl]
    rw [editPNGPass_set_map, hmapeq]
  refine ⟨?_, filter_map_update cs honce, ?_, by decide, ?_⟩
  · unfold editPNG
    rw [readPNGChunks_write cs hgood hiend]
    rw [show authorBobOpts.dryRun = false from rfl]
    simp only [Bool.false_eq_true, if_false, hchunks]
  · have hg1 : ∀ c ∈ cs, c.typ.length = 4 := fun c hc => (hgood c hc).1
    have hg2 : ∀ c ∈ (cs.map fun c => if c.typ = tEXtTy then authorBobChunk else c),
        c.typ.length = 4 := by
      intro c hc
      obtain ⟨y, hy, rfl⟩ := List.mem_map.mp hc
      by_cases ht : y.typ = tEXtTy
      · rw [if_pos ht]
        rfl
      · rw [if_neg ht]
        exact (hgood y hy).1
    rw [writePNGChunks_length _ hg2, writePNGChunks_length _ hg1]
    have := sum_map_update cs honce
    omega
  · intro c hc hty
    have hne : ¬(c.typ = tEXtTy) := by
      rcases hty with h | h <;> rw [h] <;> decide
    have : (if c.typ = tEXtTy then authorBobChunk else c) = c := if_neg hne
    rw [← this]
    exact List.mem_map_of_mem _ hc

/-- Witness for C3 at a concrete PNG (IHDR, the Author chunk, IDAT,
IEND). -/
theorem C3_png_text_edit_witness :
    editPNG (writePNGChunks [⟨ihdrTy, [0, 0, 0, 1]⟩, authorAliceChunk,
        ⟨idatTy, [1, 2, 3]⟩, ⟨iendTy, []⟩]) authorBobOpts
      = .ok (some (writePNGChunks
          ([⟨ihdrTy, [0, 0, 0, 1]⟩, authorAliceChunk, ⟨idatTy, [1, 2, 3]⟩,
            ⟨iendTy, []⟩].map
            fun c => if c.typ = tEXtTy then authorBobChunk else c))) ∧
    ([⟨ihdrTy, [0, 0, 0, 1]⟩, authorAliceChunk, ⟨idatTy, [1, 2, 3]⟩,
        ⟨iendTy, []⟩].map fun c => if c.typ = tEXtTy then authorBobChunk else c).filter
      (fun c => decide (c.typ = tEXtTy)) = [authorBobChunk] ∧
    (writePNGChunks
        ([⟨ihdrTy, [0, 0, 0, 1]⟩, authorAliceChunk, ⟨idatTy, [1, 2, 3]⟩,
          ⟨iendTy, []⟩].map
          fun c => if c.typ = tEXtTy then authorBobChunk else c)).length + 2
      = (writePNGChunks [⟨ihdrTy, [0, 0, 0, 1]⟩, authorAliceChunk,
          ⟨idatTy, [1, 2, 3]⟩, ⟨iendTy, []⟩]).length ∧
    crc32PNG tEXtTy authorBobChunk.data ≠ crc32PNG tEXtTy authorAliceChunk.data ∧
    (∀ c ∈ [⟨ihdrTy, [0, 0, 0, 1]⟩, authorAliceChunk, ⟨idatTy, [1, 2, 3]⟩,
        (⟨iendTy, []⟩ : PngChunk)], (c.typ = idatTy ∨ c.typ = iendTy) →
      c ∈ ([⟨ihdrTy, [0, 0, 0, 1]⟩, authorAliceChunk, ⟨idatTy, [1, 2, 3]⟩,
          ⟨iendTy, []⟩].map fun c => if c.typ = tEXtTy then authorBobChunk else c)) :=
  C3_png_text_edit [⟨ihdrTy, [0, 0, 0, 1]⟩, authorAliceChunk, ⟨idatTy, [1, 2, 3]⟩,
    ⟨iendTy, []⟩] (by decide) (by decide) (by decide)

theorem buildVorbisComment_vendor (m : List (List Nat × List Nat)) :
    (buildVorbisComment m).take 33 = le32 vorbisVendor.length ++ vorbisVendor := by
  unfold buildVorbisComment
  rw [List.append_assoc, List.append_assoc]
  rw [← List.append_assoc (le32 vorbisVendor.length) vorbisVendor]
  exact List.take_left' rfl

/-- Claim C4: on a FLAC stream with no Vorbis Comment block, an edit
inserts a fresh type-4 block immediately after block 0, its payload opens
with the fixed vendor string, the audio bytes after the metadata section
are byte-identical to the input's, the output re-parses to exactly the new
block list with the metadata section consumed in full, and the last-block
header bit is 1 for a final block and 0 otherwise. -/
theorem C4_flac_insert_vorbis_block
    (b0 : FlacBlock) (rest : List FlacBlock) (audio : List Nat)
    (set : List (List Nat × List Nat)) (del : List (List Nat))
    (hgood : ∀ b ∈ b0 :: rest, GoodBlock b)
    (hnovc : ∀ b ∈ b0 :: rest, b.blockType ≠ 4)
    (hset : 0 < set.length)
    (hvclen : (buildVorbisComment (applyVorbisEdits [] ⟨set, del, false⟩)).length < 2 ^ 24) :
    editFLAC (writeFLACBytes (b0 :: rest) audio) ⟨set, del, false⟩
      = .ok (some (writeFLACBytes
          (b0 :: ⟨4, buildVorbisComment (applyVorbisEdits [] ⟨set, del, false⟩)⟩ :: rest)
          audio)) ∧
    (buildVorbisComment (applyVorbisEdits [] ⟨set, del, false⟩)).take 33
      = le32 vorbisVendor.length ++ vorbisVendor ∧
    (writeFLACBytes
        (b0 :: ⟨4, buildVorbisComment (applyVorbisEdits [] ⟨set, del, false⟩)⟩ :: rest)
        audio).drop
      (4 + (serializeFLACBlocks
        (b0 :: ⟨4, buildVorbisComment (applyVorbisEdits [] ⟨set, del, false⟩)⟩ :: rest)).length)
      = audio ∧
    parseFLACBlocks (writeFLACBytes
        (b0 :: ⟨4, buildVorbisComment (applyVorbisEdits [] ⟨set, del, false⟩)⟩ :: rest)
        audio)
      = .ok (b0 :: ⟨4, buildVorbisComment (applyVorbisEdits [] ⟨set, del, false⟩)⟩ :: rest,
          4 + (serializeFLACBlocks
            (b0 :: ⟨4, buildVorbisComment (applyVorbisEdits [] ⟨set, del, false⟩)⟩
              :: rest)).length) ∧
    (∀ b : FlacBlock, GoodBlock b →
      flacHeaderWord true b / 2 ^ 31 = 1 ∧ flacHeaderWord false b / 2 ^ 31 = 0) := by
  have hvc : GoodBlock ⟨4, buildVorbisComment (applyVorbisEdits [] ⟨set, del, false⟩)⟩ :=
    ⟨by norm_num, hvclen⟩
  have hgood2 : ∀ b ∈ b0 :: ⟨4, buildVorbisComment (applyVorbisEdits [] ⟨set, del, false⟩)⟩
      :: rest, GoodBlock b := by
    intro b hb
    rcases hb with _ | ⟨_, hb⟩
    · exact hgood b0 (List.mem_cons_self _ _)
    · rcases hb with _ | ⟨_, hb⟩
      · exact hvc
      · exact hgood b (List.mem_cons_of_mem _ (by exact hb))
  refine ⟨?_, buildVorbisComment_vendor _, writeFLACBytes_drop_audio _ _,
    parseFLACBlocks_write _ audio hgood2 (by simp), ?_⟩
  · unfold editFLAC
    rw [if_pos (writeFLACBytes_take _ _)]
    rw [show (⟨set, del, false⟩ : EditOpts).dryRun = false from rfl]
    rw [if_neg (by simp)]
    rw [parseFLACBlocks_write (b0 :: rest) audio hgood (by simp)]
    have hfind : (b0 :: rest).findIdx? (fun b => decide (b.blockType = 4)) = none :=
      List.findIdx?_eq_none_iff.mpr fun b hb => by
        simpa using hnovc b hb
    dsimp only
    rw [hfind]
    dsimp only
    rw [writeFLACBytes_drop_audio]
  · intro b hb
    have h1 := hb.1
    have h2 := hb.2
    constructor
    · rw [flacHeaderWord_true b hb.1 hb.2]
      omega
    · rw [flacHeaderWord_false b hb.1 hb.2]
      omega

/-- Witness for C4 at a concrete FLAC stream (one STREAMINFO-like block,
three audio bytes, `set={"TITLE":"X"}`). -/
theorem C4_flac_insert_vorbis_block_witness :
    editFLAC (writeFLACBytes [⟨0, [1, 2, 3, 4]⟩] [9, 9, 9])
        ⟨[([84, 73, 84, 76, 69], [88])], [], false⟩
      = .ok (some (writeFLACBytes
          [⟨0, [1, 2, 3, 4]⟩,
           ⟨4, buildVorbisComment (applyVorbisEdits []
             ⟨[([84, 73, 84, 76, 69], [88])], [], false⟩)⟩] [9, 9, 9])) ∧
    (buildVorbisComment (applyVorbisEdits []
        ⟨[([84, 73, 84, 76, 69], [88])], [], false⟩)).take 33
      = le32 vorbisVendor.length ++ vorbisVendor ∧
    (writeFLACBytes [⟨0, [1, 2, 3, 4]⟩,
        ⟨4, buildVorbisComment (applyVorbisEdits []
          ⟨[([84, 73, 84, 76, 69], [88])], [], false⟩)⟩] [9, 9, 9]).drop
      (4 + (serializeFLACBlocks [⟨0, [1, 2, 3, 4]⟩,
        ⟨4, buildVorbisComment (applyVorbisEdits []
          ⟨[([84, 73, 84, 76, 69], [88])], [], false⟩)⟩]).length) = [9, 9, 9] ∧
    parseFLACBlocks (writeFLACBytes [⟨0, [1, 2, 3, 4]⟩,
        ⟨4, buildVorbisComment (applyVorbisEdits []
          ⟨[([84, 73, 84, 76, 69], [88])], [], false⟩)⟩] [9, 9, 9])
      = .ok ([⟨0, [1, 2, 3, 4]⟩,
          ⟨4, buildVorbisComment (applyVorbisEdits []
            ⟨[([84, 73, 84, 76, 69], [88])], [], false⟩)⟩],
          4 + (serializeFLACBlocks [⟨0, [1, 2, 3, 4]⟩,
            ⟨4, buildVorbisComment (applyVorbisEdits []
              ⟨[([84, 73, 84, 76, 69], [88])], [], false⟩)⟩]).length) ∧
    (∀ b : FlacBlock, GoodBlock b →
      flacHeaderWord true b / 2 ^ 31 = 1 ∧ flacHeaderWord false b / 2 ^ 31 = 0) :=
  C4_flac_insert_vorbis_block ⟨0, [1, 2, 3, 4]⟩ [] [9, 9, 9]
    [([84, 73, 84, 76, 69], [88])] []
    (by decide) (by decide) (by decide) (by decide)

/-! Claim C7 - strip and non-metadata siblings. -/

/-- An in-memory RIFF chunk (id and payload). -/
structure RiffChunk where
  cid     : List Nat
  payload : List Nat
deriving DecidableEq, Repr

/-- The on-disk bytes of a RIFF chunk: id, little-endian size, payload,
and a padding byte after an odd payload. -/
def riffChunkBytes (c : RiffChunk) : List Nat :=
  c.cid ++ le32 c.payload.length ++ c.payload
    ++ (if c.payload.length % 2 = 1 then [0] else [])

/-- A RIFF chunk sequence as it appears after the 12-byte RIFF/WAVE
header. -/
def serializeRIFFChunks (cs : List RiffChunk) : List Nat :=
  (cs.map riffChunkBytes).flatten

/-- The chunks `stripWAV` keeps. -/
def wavKeep (c : RiffChunk) : Bool :=
  decide (¬(c.cid = listTy ∨ c.cid = id3LoTy ∨ c.cid = id3HiTy))

/-- Well-formed RIFF chunk. -/
def GoodRiff (c : RiffChunk) : Prop :=
  c.cid.length = 4 ∧ c.payload.length < 2 ^ 32

instance (c : RiffChunk) : Decidable (GoodRiff c) := by
  unfold GoodRiff
  infer_instance

theorem riffChunkBytes_assoc (c : RiffChunk) (rest : List Nat) :
    riffChunkBytes c ++ rest
      = c.cid ++ (le32 c.payload.length ++ (c.payload
          ++ ((if c.payload.length % 2 = 1 then [0] else []) ++ rest))) := by
  simp [riffChunkBytes, List.append_assoc]

theorem stripWAVLoop_step (fuel : Nat) (c : RiffChunk) (rest : List Nat)
    (hid : c.cid.length = 4) (hsz : c.payload.length < 2 ^ 32) :
    stripWAVLoop (fuel + 1) (riffChunkBytes c ++ rest)
      = (if wavKeep c then c.cid ++ le32 c.payload.length ++ c.payload else [])
          ++ stripWAVLoop fuel rest := by
  rw [riffChunkBytes_assoc]
  have e1 : (c.cid ++ (le32 c.payload.length ++ (c.payload
      ++ ((if c.payload.length % 2 = 1 then [0] else []) ++ rest)))).take 4 = c.cid :=
    List.take_left' hid
  have e2 : (c.cid ++ (le32 c.payload.length ++ (c.payload
      ++ ((if c.payload.length % 2 = 1 then [0] else []) ++ rest)))).drop 4
      = le32 c.payload.length ++ (c.payload
        ++ ((if c.payload.length % 2 = 1 then [0] else []) ++ rest)) :=
    List.drop_left' hid
  have e3 : (le32 c.payload.length ++ (c.payload
      ++ ((if c.payload.length % 2 = 1 then [0] else []) ++ rest))).take 4
      = le32 c.payload.length := List.take_left' (le32_length _)
  have e4 : (c.cid ++ (le32 c.payload.length ++ (c.payload
      ++ ((if c.payload.length % 2 = 1 then [0] else []) ++ rest)))).drop 8
      = c.payload ++ ((if c.payload.length % 2 = 1 then [0] else []) ++ rest) := by
    rw [show (8 : Nat) = 4 + 4 from rfl, ← List.drop_drop, e2]
    exact List.drop_left' (le32_length _)
  have hlen8 : 8 ≤ (c.cid ++ (le32 c.payload.length ++ (c.payload
      ++ ((if c.payload.length % 2 = 1 then [0] else []) ++ rest)))).length := by
    simp only [List.length_append, hid, le32_length]
    omega
  have hle : c.payload.length ≤ (c.payload
      ++ ((if c.payload.length % 2 = 1 then [0] else []) ++ rest)).length := by
    simp only [List.length_append]
    omega
  have e5 : (c.payload ++ ((if c.payload.length % 2 = 1 then [0] else []) ++ rest)).drop
      (c.payload.length + c.payload.length % 2) = rest := by
    rw [← List.drop_drop, List.drop_left]
    by_cases hp : c.payload.length % 2 = 1
    · rw [if_pos hp, hp]
      rfl
    · rw [if_neg hp, show c.payload.length % 2 = 0 from by omega]
      rfl
  have e6 : (c.cid ++ (le32 c.payload.length ++ (c.payload
      ++ ((if c.payload.length % 2 = 1 then [0] else []) ++ rest)))).take
        (8 + c.payload.length)
      = c.cid ++ le32 c.payload.length ++ c.payload := by
    rw [show c.cid ++ (le32 c.payload.length ++ (c.payload
        ++ ((if c.payload.length % 2 = 1 then [0] else []) ++ rest)))
        = (c.cid ++ le32 c.payload.length ++ c.payload)
          ++ ((if c.payload.length % 2 = 1 then [0] else []) ++ rest) from by
      simp [List.append_assoc]]
    refine List.take_left' ?_
    simp only [List.length_append, hid, le32_length]
  rw [stripWAVLoop]
  rw [if_pos hlen8]
  simp only [e1, e2, e3, e4, e5, e6, leVal_le32 _ hsz]
  rw [if_pos hle]
  by_cases hk : wavKeep c = true
  · have hkp : ¬(c.cid = listTy ∨ c.cid = id3LoTy ∨ c.cid = id3HiTy) := by
      simpa [wavKeep] using hk
    rw [if_pos hkp, hk]
    simp
  · have hkp : ¬¬(c.cid = listTy ∨ c.cid = id3LoTy ∨ c.cid = id3HiTy) := by
      simpa [wavKeep] using hk
    rw [if_neg hkp]
    rw [show wavKeep c = false from by simpa using hk]
    simp

theorem serializeRIFFChunks_length_ge (cs : List RiffChunk) :
    cs.length ≤ (serializeRIFFChunks cs).length := by
  induction cs with
  | nil => simp [serializeRIFFChunks]
  | cons c rest ih =>
    simp only [serializeRIFFChunks, List.map_cons, List.flatten_cons, List.length_append,
      List.length_cons] at ih ⊢
    have : 1 ≤ (riffChunkBytes c).length := by
      simp only [riffChunkBytes, List.length_append, le32_length]
      omega
    omega

theorem stripWAVLoop_serialize (cs : List RiffChunk) (fuel : Nat)
    (hfuel : cs.length ≤ fuel)
    (hgood : ∀ c ∈ cs, GoodRiff c) :
    stripWAVLoop fuel (serializeRIFFChunks cs)
      = ((cs.filter wavKeep).map
          (fun c => c.cid ++ le32 c.payload.length ++ c.payload)).flatten := by
  induction cs generalizing fuel with
  | nil =>
    cases fuel with
    | zero => rfl
    | succ n => simp [stripWAVLoop, serializeRIFFChunks]
  | cons c rest ih =>
    obtain ⟨fuel, rfl⟩ : ∃ m, fuel = m + 1 := by
      cases fuel with
      | zero => exact absurd hfuel (by simp)
      | succ m => exact ⟨m, rfl⟩
    obtain ⟨hid, hsz⟩ := hgood c (List.mem_cons_self c rest)
    rw [show serializeRIFFChunks (c :: rest)
        = riffChunkBytes c ++ serializeRIFFChunks rest from by
      simp [serializeRIFFChunks]]
    rw [stripWAVLoop_step fuel c _ hid hsz]
    rw [ih fuel (by simpa using Nat.le_of_succ_le_succ hfuel)
      (fun q hq => hgood q (List.mem_cons_of_mem _ hq))]
    by_cases hk : wavKeep c = true
    · rw [if_pos hk, List.filter_cons_of_pos hk]
      simp
    · rw [if_neg hk, List.filter_cons_of_neg (by simpa using hk)]
      simp

/-- A concrete WAV with an odd-sized `fmt ` chunk (payload `[10,11,12]`,
padded) followed by a `data` chunk. -/
def c7WavOdd : List Nat :=
  riffTy ++ le32 30 ++ waveTy
    ++ serializeRIFFChunks [⟨fmtTy, [10, 11, 12]⟩, ⟨dataTy, [20, 21]⟩]

/-- The output `stripWAV` produces on `c7WavOdd`. -/
def c7Out : List Nat :=
  match stripWAVBytes c7WavOdd with
  | .ok o => o
  | _ => []

/-- Claim C7 (counterexample): `c7WavOdd` contains no metadata chunk at
all, yet its strip output no longer contains the `fmt ` chunk together
with its padding byte — the padded chunk bytes occur in the input but in
no position of the output, so the chunk does not appear byte-identically
including its padding. -/
theorem C7_wav_padding_dropped :
    stripWAVBytes c7WavOdd = .ok c7Out ∧
    (fmtTy ++ le32 3 ++ [10, 11, 12, 0]) <:+: c7WavOdd ∧
    ¬((fmtTy ++ le32 3 ++ [10, 11, 12, 0]) <:+: c7Out) := by
  refine ⟨by decide, ?_, by decide⟩
  decide

/-- Claim C7 (amended): non-metadata nodes keep their header and payload
bytes and their relative order, but (a) the WAV strip never copies the
padding byte after an odd-sized chunk; (b) the PNG strip re-emits kept
chunks with recomputed CRCs, so their bytes match the input exactly when
the input CRCs were valid; (c) the MP4 strip splices out exactly the
atom-sized byte range at the first pattern match and leaves every byte
outside it untouched. -/
theorem C7_amended_strip_preserves_nonmetadata :
    (∀ (cs : List RiffChunk) (sz : Nat), (∀ c ∈ cs, GoodRiff c) →
      stripWAVBytes (riffTy ++ le32 sz ++ waveTy ++ serializeRIFFChunks cs)
        = .ok (riffTy
            ++ le32 ((((cs.filter wavKeep).map
                (fun c => c.cid ++ le32 c.payload.length ++ c.payload)).flatten).length + 4)
            ++ waveTy
            ++ ((cs.filter wavKeep).map
                (fun c => c.cid ++ le32 c.payload.length ++ c.payload)).flatten)) ∧
    (∀ (cs : List PngChunk) (gps all : Bool), (∀ c ∈ cs, GoodChunk c) → NoEarlyIend cs →
      stripPNG (writePNGChunks cs) ⟨[], gps, all⟩
        = .ok (writePNGChunks (cs.filter fun c => !(pngMetaTypes.contains c.typ)))) ∧
    (∀ (pre u suf : List Nat),
      indexOfSeq udtaTy (pre ++ packAtom udtaTy u ++ suf) = some (pre.length + 4) →
      8 + u.length < 2 ^ 32 →
      removeMP4Atom (pre ++ packAtom udtaTy u ++ suf) udtaTy = pre ++ suf) := by
  refine ⟨?_, ?_, ?_⟩
  · intro cs sz hgood
    unfold stripWAVBytes
    have hlen12 : ¬((riffTy ++ le32 sz ++ waveTy ++ serializeRIFFChunks cs).length < 12) := by
      simp only [List.length_append, le32_length]
      rw [show riffTy.length = 4 from rfl, show waveTy.length = 4 from rfl]
      omega
    rw [if_neg hlen12]
    have hdrop : (riffTy ++ le32 sz ++ waveTy ++ serializeRIFFChunks cs).drop 12
        = serializeRIFFChunks cs := by
      rw [List.append_assoc, List.append_assoc]
      rw [show (12 : Nat) = riffTy.length + (le32 sz ++ waveTy).length from by
        simp only [List.length_append, le32_length]
        decide]
      rw [show riffTy ++ (le32 sz ++ (waveTy ++ serializeRIFFChunks cs))
          = riffTy ++ ((le32 sz ++ waveTy) ++ serializeRIFFChunks cs) from by
        simp [List.append_assoc]]
      rw [← List.drop_drop]
      rw [List.drop_left]
      exact List.drop_left _ _
    rw [hdrop]
    rw [stripWAVLoop_serialize cs _ ?_ hgood]
    have h := serializeRIFFChunks_length_ge cs
    simp only [List.length_append]
    omega
  · intro cs gps all hgood hiend
    unfold stripPNG
    rw [readPNGChunks_write cs hgood hiend]
    dsimp only
    have hfeq : cs.filter (stripPNGKeep (([] : List (List Nat)).map lowerBytes))
        = cs.filter fun c => !(pngMetaTypes.contains c.typ) := by
      apply List.filter_congr
      intro c hc
      unfold stripPNGKeep
      by_cases hm : pngMetaTypes.contains c.typ
      · rw [if_pos hm, hm]
        simp [List.contains]
      · rw [if_neg hm]
        simp only [Bool.not_eq_true] at hm
        rw [hm]
        rfl
    rw [hfeq]
  · intro pre u suf hidx hsz
    have hpk : packAtom udtaTy u = be32 (8 + u.length) ++ udtaTy ++ u :=
      packAtom_fourByte _ _ rfl
    have hlenpk : (packAtom udtaTy u).length = 8 + u.length := by
      rw [hpk]
      simp [be32_length, udtaTy]
      omega
    have hdroppre : (pre ++ packAtom udtaTy u ++ suf).drop pre.length
        = packAtom udtaTy u ++ suf := by
      rw [List.append_assoc]
      exact List.drop_left _ _
    have htake4 : ((pre ++ packAtom udtaTy u ++ suf).drop pre.length).take 4
        = be32 (8 + u.length) := by
      rw [hdroppre, hpk, List.append_assoc, List.append_assoc]
      exact List.take_left' (be32_length _)
    have htakepre : (pre ++ packAtom udtaTy u ++ suf).take pre.length = pre := by
      rw [List.append_assoc]
      exact List.take_left _ _
    have hdropall : (pre ++ packAtom udtaTy u ++ suf).drop
        (pre.length + (8 + u.length)) = suf := by
      rw [← List.drop_drop, hdroppre, ← hlenpk]
      exact List.drop_left _ _
    have hlen : ¬((pre ++ packAtom udtaTy u ++ suf).length < pre.length + (8 + u.length)) := by
      simp only [List.length_append, hlenpk]
      omega
    unfold removeMP4Atom
    rw [hidx]
    dsimp only
    rw [if_neg (by omega : ¬(pre.length + 4 < 4))]
    simp only [Nat.add_sub_cancel]
    rw [htake4, beVal_be32 _ hsz]
    rw [if_neg hlen, htakepre, hdropall]

/-- Witness for the amended C7 at concrete inputs. -/
theorem C7_amended_strip_preserves_nonmetadata_witness :
    stripWAVBytes (riffTy ++ le32 30 ++ waveTy
        ++ serializeRIFFChunks [⟨fmtTy, [10, 11, 12]⟩, ⟨listTy, [5, 5]⟩])
      = .ok (riffTy
          ++ le32 (((([⟨fmtTy, [10, 11, 12]⟩, ⟨listTy, [5, 5]⟩].filter wavKeep).map
              (fun c => c.cid ++ le32 c.payload.length ++ c.payload)).flatten).length + 4)
          ++ waveTy
          ++ (([⟨fmtTy, [10, 11, 12]⟩, ⟨listTy, [5, 5]⟩].filter wavKeep).map
              (fun c => c.cid ++ le32 c.payload.length ++ c.payload)).flatten) ∧
    stripPNG (writePNGChunks [⟨ihdrTy, [1]⟩, ⟨tEXtTy, [65, 0, 66]⟩, ⟨idatTy, [2]⟩,
        ⟨iendTy, []⟩]) ⟨[], false, true⟩
      = .ok (writePNGChunks ([⟨ihdrTy, [1]⟩, ⟨tEXtTy, [65, 0, 66]⟩, ⟨idatTy, [2]⟩,
          ⟨iendTy, []⟩].filter fun c => !(pngMetaTypes.contains c.typ))) ∧
    removeMP4Atom ([1, 2, 3, 4, 5] ++ packAtom udtaTy [6, 7] ++ [8, 9]) udtaTy
      = [1, 2, 3, 4, 5] ++ [8, 9] :=
  ⟨C7_amended_strip_preserves_nonmetadata.1 [⟨fmtTy, [10, 11, 12]⟩, ⟨listTy, [5, 5]⟩] 30
      (by decide),
   C7_amended_strip_preserves_nonmetadata.2.1 [⟨ihdrTy, [1]⟩, ⟨tEXtTy, [65, 0, 66]⟩,
      ⟨idatTy, [2]⟩, ⟨iendTy, []⟩] false true (by decide) (by decide),
   C7_amended_strip_preserves_nonmetadata.2.2 [1, 2, 3, 4, 5] [6, 7] [8, 9]
      (by decide) (by decide)⟩

/-- Claim C9: the spec's reading of `editFLAC` expects total evaluation,
but on the buffer consisting of exactly the four magic bytes with a
non-empty `set`, zero metadata blocks parse and the insertion path reads
`blocks[0]` out of range — the Go code panics; the embedding surfaces the
out-of-range access as an explicit error value at precisely that read. -/
theorem C9_editFLAC_empty_blocks_out_of_range :
    editFLAC fLaCMagic ⟨[([84, 73, 84, 76, 69], [88])], [], false⟩
      = .error .indexOutOfRange := by
  decide

/-! Claim C6 - set/delete idempotence infrastructure. -/

theorem findIdx_first_marker (b : Nat) (K rest : List Nat) (hK : ¬ b ∈ K) :
    (K ++ b :: rest).findIdx? (fun x => decide (x = b)) = some K.length := by
  induction K with
  | nil => simp [List.findIdx?_cons]
  | cons a K ih =>
    have ha : ¬(a = b) := fun h => hK (h ▸ List.mem_cons_self a K)
    have hK2 : ¬ b ∈ K := fun h => hK (List.mem_cons_of_mem _ h)
    simp only [List.cons_append, List.findIdx?_cons, decide_eq_true_eq]
    rw [if_neg (by simpa using ha)]
    rw [List.findIdx?_succ]
    rw [ih hK2]
    rfl

/-- The keyword parse of a well-formed `keyword\x00value` tEXt payload. -/
theorem pngKeyOf_marker (K V : List Nat) (hK : K ≠ []) (h0 : ¬ 0 ∈ K) :
    pngKeyOf (K ++ 0 :: V) = some K := by
  unfold pngKeyOf
  rw [findIdx_first_marker 0 K V h0]
  dsimp only
  rw [if_pos (List.length_pos.mpr hK)]
  rw [List.take_left]

/-- The `KEY=VALUE` split of a well-formed Vorbis comment. -/
theorem vorbisEqSplit_marker (k v : List Nat) (hk : k ≠ []) (h61 : ¬ 61 ∈ k) :
    vorbisEqSplit (k ++ 61 :: v) = some (k, v) := by
  unfold vorbisEqSplit
  rw [findIdx_first_marker 61 k v h61]
  dsimp only
  rw [if_pos (List.length_pos.mpr hk)]
  rw [List.take_left]
  rw [show k ++ 61 :: v = (k ++ [61]) ++ v from by rw [List.append_assoc]; rfl]
  rw [List.drop_left' (by simp)]

theorem toUpperAscii_idem (b : Nat) : toUpperAscii (toUpperAscii b) = toUpperAscii b := by
  unfold toUpperAscii
  by_cases h : 97 ≤ b ∧ b ≤ 122
  · rw [if_pos h]
    rw [if_neg (by omega)]
  · rw [if_neg h, if_neg h]

theorem upperBytes_idem (l : List Nat) : upperBytes (upperBytes l) = upperBytes l := by
  unfold upperBytes
  rw [List.map_map]
  apply List.map_congr_left
  intro b _
  exact toUpperAscii_idem b

theorem mapSet_nil (k v : List Nat) : mapSet [] k v = [(k, v)] := rfl

theorem mapSet_singleton_same (k v v2 : List Nat) :
    mapSet [(k, v)] k v2 = [(k, v2)] := by
  unfold mapSet
  rw [if_pos (by simp)]
  simp

/-- `delete(m, k)` on a map not containing `k` is the identity. -/
theorem mapDel_absent (m : List (List Nat × List Nat)) (k : List Nat)
    (h : ∀ p ∈ m, p.1 ≠ k) : mapDel m k = m := by
  unfold mapDel
  apply List.filter_eq_self.mpr
  intro p hp
  simp [h p hp]

theorem parseVorbisLoop_succ (count : Nat) (buf : List Nat)
    (m : List (List Nat × List Nat)) :
    parseVorbisLoop (count + 1) buf m
      = if 4 ≤ buf.length then
          if leVal (buf.take 4) ≤ (buf.drop 4).length then
            parseVorbisLoop count ((buf.drop 4).drop (leVal (buf.take 4)))
              (match vorbisEqSplit ((buf.drop 4).take (leVal (buf.take 4))) with
               | some p => mapSet m (upperBytes p.1) p.2
               | none => m)
          else m
        else m := rfl

/-- Parsing a freshly built one-field Vorbis comment recovers the field,
provided its key is nonempty, `=`-free and already upper-cased. -/
theorem parseVorbis_build_singleton (k v : List Nat) (hk : k ≠ [])
    (h61 : ¬ 61 ∈ k) (hup : upperBytes k = k)
    (hlen : k.length + 1 + v.length < 2 ^ 32) :
    parseVorbisComments (buildVorbisComment [(k, v)]) [] = [(k, v)] := by
  have hflat : buildVorbisComment [(k, v)]
      = le32 29 ++ vorbisVendor ++ le32 1
          ++ (le32 (k.length + 1 + v.length) ++ k ++ 61 :: v) := by
    unfold buildVorbisComment
    simp [vorbisVendor]
  have hT : (k ++ 61 :: v).length = k.length + 1 + v.length := by
    simp only [List.length_append, List.length_cons]
    omega
  rw [hflat]
  unfold parseVorbisComments
  have hBlen : (le32 29 ++ vorbisVendor ++ le32 1
      ++ (le32 (k.length + 1 + v.length) ++ k ++ 61 :: v)).length
      = 41 + (k.length + 1 + v.length) := by
    simp only [List.length_append, le32_length, List.length_cons]
    rw [show vorbisVendor.length = 29 from rfl]
    omega
  rw [if_pos (by rw [hBlen]; omega)]
  have e1 : (le32 29 ++ vorbisVendor ++ le32 1
      ++ (le32 (k.length + 1 + v.length) ++ k ++ 61 :: v)).take 4 = le32 29 := by
    rw [List.append_assoc, List.append_assoc]
    exact List.take_left' rfl
  rw [e1]
  rw [leVal_le32 29 (by norm_num)]
  rw [if_pos (by rw [hBlen]; omega)]
  have e3 : (le32 29 ++ vorbisVendor ++ le32 1
      ++ (le32 (k.length + 1 + v.length) ++ k ++ 61 :: v)).drop (4 + 29)
      = le32 1 ++ (le32 (k.length + 1 + v.length) ++ k ++ 61 :: v) := by
    rw [List.append_assoc (le32 29 ++ vorbisVendor)]
    exact List.drop_left' rfl
  rw [e3]
  rw [List.take_left' (le32_length 1)]
  rw [leVal_le32 1 (by norm_num)]
  have e5 : (le32 29 ++ vorbisVendor ++ le32 1
      ++ (le32 (k.length + 1 + v.length) ++ k ++ 61 :: v)).drop (4 + 29 + 4)
      = le32 (k.length + 1 + v.length) ++ k ++ 61 :: v := by
    exact List.drop_left' rfl
  rw [e5]
  rw [show (1 : Nat) = 0 + 1 from rfl, parseVorbisLoop_succ]
  have hTlen : (le32 (k.length + 1 + v.length) ++ k ++ 61 :: v).length
      = 4 + (k.length + 1 + v.length) := by
    simp only [List.length_append, le32_length, List.length_cons]
    omega
  rw [if_pos (by rw [hTlen]; omega)]
  have e6 : (le32 (k.length + 1 + v.length) ++ k ++ 61 :: v).take 4
      = le32 (k.length + 1 + v.length) := by
    rw [List.append_assoc]
    exact List.take_left' rfl
  rw [e6]
  rw [leVal_le32 _ hlen]
  have e7 : (le32 (k.length + 1 + v.length) ++ k ++ 61 :: v).drop 4
      = k ++ 61 :: v := by
    rw [List.append_assoc]
    exact List.drop_left' rfl
  rw [e7]
  rw [if_pos (by rw [hT])]
  rw [List.take_of_length_le (by rw [hT])]
  rw [vorbisEqSplit_marker k v hk h61]
  dsimp only
  rw [mapSet_nil, hup]
  rfl

/-- The per-chunk update performed by the first `editPNG` loop under
`set = {K: V}`. -/
def updKChunk (K V : List Nat) (c : PngChunk) : PngChunk :=
  if isKChunk K c then ⟨tEXtTy, K ++ 0 :: V⟩ else c

theorem isKChunk_bob (K V : List Nat) (hK : K ≠ []) (h0 : ¬ 0 ∈ K) :
    isKChunk K ⟨tEXtTy, K ++ 0 :: V⟩ = true := by
  simp [isKChunk, pngKeyOf_marker K V hK h0]

theorem updKChunk_typ (K V : List Nat) (c : PngChunk) : (updKChunk K V c).typ = c.typ := by
  unfold updKChunk
  by_cases h : isKChunk K c = true
  · rw [if_pos h]
    simp only [isKChunk, Bool.and_eq_true, decide_eq_true_eq] at h
    exact h.1.symm
  · rw [if_neg h]

theorem updKChunk_idem (K V : List Nat) (hK : K ≠ []) (h0 : ¬ 0 ∈ K) (c : PngChunk) :
    updKChunk K V (updKChunk K V c) = updKChunk K V c := by
  unfold updKChunk
  by_cases h : isKChunk K c = true
  · rw [if_pos h]
    rw [if_pos (isKChunk_bob K V hK h0)]
  · rw [if_neg h, if_neg h]

theorem isKChunk_updKChunk (K V : List Nat) (hK : K ≠ []) (h0 : ¬ 0 ∈ K) (c : PngChunk) :
    isKChunk K (updKChunk K V c) = isKChunk K c := by
  unfold updKChunk
  by_cases h : isKChunk K c = true
  · rw [if_pos h, isKChunk_bob K V hK h0, h]
  · rw [if_neg h]

theorem insertBeforeIDAT_cons (a : List PngChunk) (c : PngChunk) (l : List PngChunk) :
    insertBeforeIDAT a (c :: l)
      = if c.typ = idatTy then a ++ c :: l else c :: insertBeforeIDAT a l := rfl

/-- A type-preserving chunk map commutes with the before-IDAT insertion. -/
theorem insertBeforeIDAT_map (f : PngChunk → PngChunk) (hf : ∀ c, (f c).typ = c.typ)
    (a l : List PngChunk) :
    (insertBeforeIDAT a l).map f = insertBeforeIDAT (a.map f) (l.map f) := by
  induction l with
  | nil => rfl
  | cons c rest ih =>
    rw [insertBeforeIDAT_cons, List.map_cons, insertBeforeIDAT_cons]
    by_cases h : c.typ = idatTy
    · rw [if_pos h]
      rw [if_pos (by rw [hf]; exact h)]
      simp [List.map_append]
    · rw [if_neg h]
      rw [if_neg (by rw [hf]; exact h)]
      rw [List.map_cons, ih]

theorem mem_insertBeforeIDAT (a l : List PngChunk) (x : PngChunk) :
    x ∈ insertBeforeIDAT a l ↔ x ∈ a ∨ x ∈ l := by
  induction l with
  | nil => simp [insertBeforeIDAT]
  | cons c rest ih =>
    rw [insertBeforeIDAT_cons]
    by_cases h : c.typ = idatTy
    · rw [if_pos h]
      simp
    · rw [if_neg h]
      simp only [List.mem_cons, ih]
      tauto

theorem countP_insertBeforeIDAT (p : PngChunk → Bool) (a l : List PngChunk) :
    (insertBeforeIDAT a l).countP p = a.countP p + l.countP p := by
  induction l with
  | nil => simp [insertBeforeIDAT]
  | cons c rest ih =>
    rw [insertBeforeIDAT_cons]
    by_cases h : c.typ = idatTy
    · rw [if_pos h]
      simp [List.countP_append]
    · rw [if_neg h]
      rw [List.countP_cons, List.countP_cons, ih]
      omega

theorem pngAddChunks_single (K V : List Nat) (cs : List PngChunk) :
    pngAddChunks [(K, V)] [] cs
      = if cs.any (isKChunk K) then [] else [⟨tEXtTy, K ++ 0 :: V⟩] := by
  unfold pngAddChunks
  rw [List.filter_cons]
  dsimp only
  rw [pngChunkDone_any]
  by_cases h : cs.any (isKChunk K) = true
  · rw [h]
    rw [if_neg (show ¬((!true) = true) from by simp)]
    rw [if_pos (show (true = true) from rfl)]
    rfl
  · rw [show cs.any (isKChunk K) = false from by simpa using h]
    rw [if_pos (show (!false) = true from rfl)]
    rw [if_neg (show ¬(false = true) from by simp)]
    rfl

theorem buildVorbisComment_single_length (k v : List Nat) :
    (buildVorbisComment [(k, v)]).length = 42 + k.length + v.length := by
  unfold buildVorbisComment
  simp only [List.map_cons, List.map_nil, List.flatten_cons, List.flatten_nil,
    List.append_nil, List.length_append, le32_length, List.length_cons]
  rw [show vorbisVendor.length = 29 from rfl]
  omega

theorem applyVorbisEdits_single (K V : List Nat) :
    applyVorbisEdits [] ⟨[(K, V)], [], false⟩ = [(upperBytes K, V)] := rfl

theorem applyVorbisEdits_single_again (K V : List Nat) :
    applyVorbisEdits [(upperBytes K, V)] ⟨[(K, V)], [], false⟩ = [(upperBytes K, V)] := by
  unfold applyVorbisEdits
  dsimp only [List.foldl]
  exact mapSet_singleton_same (upperBytes K) V V

/-- Two successive FLAC `set {K: V}` edits on a stream with no Vorbis
Comment block: the first inserts the one-field block after block 0, the
second returns the same bytes unchanged. -/
theorem flac_double_set_aux (K V : List Nat) (b0 : FlacBlock) (rest : List FlacBlock)
    (audio : List Nat)
    (hb0 : GoodBlock b0) (hb0ty : b0.blockType ≠ 4)
    (hrest : ∀ b ∈ rest, GoodBlock b ∧ b.blockType ≠ 4)
    (hK : K ≠ []) (h61 : ¬ 61 ∈ upperBytes K)
    (hlen : 42 + K.length + V.length < 2 ^ 24) :
    editFLAC (writeFLACBytes (b0 :: rest) audio) ⟨[(K, V)], [], false⟩
        = .ok (some (writeFLACBytes
            (b0 :: ⟨4, buildVorbisComment [(upperBytes K, V)]⟩ :: rest) audio))
      ∧ editFLAC (writeFLACBytes
            (b0 :: ⟨4, buildVorbisComment [(upperBytes K, V)]⟩ :: rest) audio)
          ⟨[(K, V)], [], false⟩
        = .ok (some (writeFLACBytes
            (b0 :: ⟨4, buildVorbisComment [(upperBytes K, V)]⟩ :: rest) audio)) := by
  have hKlen : (upperBytes K).length = K.length := List.length_map _ _
  have hbuildlen : (buildVorbisComment [(upperBytes K, V)]).length < 2 ^ 24 := by
    rw [buildVorbisComment_single_length, hKlen]
    omega
  have hvc : GoodBlock (⟨4, buildVorbisComment [(upperBytes K, V)]⟩ : FlacBlock) :=
    ⟨by norm_num, hbuildlen⟩
  have hgood1 : ∀ b ∈ b0 :: rest, GoodBlock b := by
    intro b hb
    rcases hb with _ | ⟨_, hb⟩
    · exact hb0
    · exact (hrest b hb).1
  have hgood2 : ∀ b ∈ b0 :: (⟨4, buildVorbisComment [(upperBytes K, V)]⟩ : FlacBlock) :: rest,
      GoodBlock b := by
    intro b hb
    rcases hb with _ | ⟨_, hb⟩
    · exact hb0
    · rcases hb with _ | ⟨_, hb⟩
      · exact hvc
      · exact (hrest b hb).1
  have hKnil : upperBytes K ≠ [] := by simpa [upperBytes] using hK
  have hlen32 : (upperBytes K).length + 1 + V.length < 2 ^ 32 := by
    rw [hKlen]
    omega
  constructor
  · unfold editFLAC
    rw [if_pos (writeFLACBytes_take _ _)]
    rw [show (⟨[(K, V)], [], false⟩ : EditOpts).dryRun = false from rfl]
    rw [if_neg (by simp)]
    rw [parseFLACBlocks_write (b0 :: rest) audio hgood1 (by simp)]
    have hfind : (b0 :: rest).findIdx? (fun b => decide (b.blockType = 4)) = none :=
      List.findIdx?_eq_none_iff.mpr fun b hb => by
        rcases hb with _ | ⟨_, hb⟩
        · simpa using hb0ty
        · simpa using (hrest b hb).2
    dsimp only
    rw [hfind]
    dsimp only
    rw [writeFLACBytes_drop_audio]
    rfl
  · unfold editFLAC
    rw [if_pos (writeFLACBytes_take _ _)]
    rw [show (⟨[(K, V)], [], false⟩ : EditOpts).dryRun = false from rfl]
    rw [if_neg (by simp)]
    rw [parseFLACBlocks_write _ audio hgood2 (by simp)]
    dsimp only
    have hfind2 : List.findIdx? (fun b => decide (b.blockType = 4))
        (b0 :: (⟨4, buildVorbisComment [(upperBytes K, V)]⟩ : FlacBlock) :: rest) = some 1 := by
      rw [List.findIdx?_cons]
      rw [if_neg (by simpa using hb0ty)]
      rw [List.findIdx?_cons]
      simp
    rw [hfind2]
    dsimp only
    rw [show (b0 :: (⟨4, buildVorbisComment [(upperBytes K, V)]⟩ : FlacBlock) :: rest).getD 1
        ⟨0, []⟩ = ⟨4, buildVorbisComment [(upperBytes K, V)]⟩ from rfl]
    rw [show (⟨4, buildVorbisComment [(upperBytes K, V)]⟩ : FlacBlock).data
        = buildVorbisComment [(upperBytes K, V)] from rfl]
    rw [parseVorbis_build_singleton (upperBytes K) V hKnil h61 (upperBytes_idem K) hlen32]
    rw [applyVorbisEdits_single_again K V]
    rw [writeFLACBytes_drop_audio]
    rfl

/-- A FLAC `delete {K}` edit whose key is absent from the parsed comment
map: the rebuilt Vorbis block carries exactly the unchanged map and the
edit reports no error. -/
theorem flac_delete_absent_aux (delK vcdata : List Nat) (b0 : FlacBlock)
    (rest : List FlacBlock) (audio : List Nat)
    (hb0 : GoodBlock b0) (hb0ty : b0.blockType ≠ 4)
    (hvclen : vcdata.length < 2 ^ 24)
    (hrest : ∀ b ∈ rest, GoodBlock b)
    (habs : ∀ p ∈ parseVorbisComments vcdata [], p.1 ≠ upperBytes delK) :
    editFLAC (writeFLACBytes (b0 :: ⟨4, vcdata⟩ :: rest) audio) ⟨[], [delK], false⟩
      = .ok (some (writeFLACBytes
          (b0 :: ⟨4, buildVorbisComment (parseVorbisComments vcdata [])⟩ :: rest) audio)) := by
  have hgood2 : ∀ b ∈ b0 :: (⟨4, vcdata⟩ : FlacBlock) :: rest, GoodBlock b := by
    intro b hb
    rcases hb with _ | ⟨_, hb⟩
    · exact hb0
    · rcases hb with _ | ⟨_, hb⟩
      · exact ⟨by norm_num, hvclen⟩
      · exact hrest b hb
  unfold editFLAC
  rw [if_pos (writeFLACBytes_take _ _)]
  rw [show (⟨[], [delK], false⟩ : EditOpts).dryRun = false from rfl]
  rw [if_neg (by simp)]
  rw [parseFLACBlocks_write _ audio hgood2 (by simp)]
  dsimp only
  have hfind2 : List.findIdx? (fun b => decide (b.blockType = 4))
      (b0 :: (⟨4, vcdata⟩ : FlacBlock) :: rest) = some 1 := by
    rw [List.findIdx?_cons]
    rw [if_neg (by simpa using hb0ty)]
    rw [List.findIdx?_cons]
    simp
  rw [hfind2]
  dsimp only
  rw [show (b0 :: (⟨4, vcdata⟩ : FlacBlock) :: rest).getD 1 ⟨0, []⟩ = ⟨4, vcdata⟩ from rfl]
  rw [show (⟨4, vcdata⟩ : FlacBlock).data = vcdata from rfl]
  rw [show applyVorbisEdits (parseVorbisComments vcdata []) ⟨[], [delK], false⟩
      = mapDel (parseVorbisComments vcdata []) (upperBytes delK) from rfl]
  rw [mapDel_absent _ _ habs]
  rw [writeFLACBytes_drop_audio]
  rfl

/-- Two successive PNG `set {K: V}` edits: the second is the identity on
the chunk list, the result carries exactly one `K` tEXt chunk when the
input carried at most one, and every `K` tEXt chunk of the result is the
canonical `K\x00V` chunk. -/
theorem png_double_set_aux (K V : List Nat) (cs : List PngChunk)
    (hK : K ≠ []) (h0 : ¬ 0 ∈ K) :
    editPNGChunks ⟨[(K, V)], [], false⟩ (editPNGChunks ⟨[(K, V)], [], false⟩ cs)
        = editPNGChunks ⟨[(K, V)], [], false⟩ cs
      ∧ (cs.countP (isKChunk K) ≤ 1 →
          (editPNGChunks ⟨[(K, V)], [], false⟩ cs).countP (isKChunk K) = 1)
      ∧ ∀ c ∈ editPNGChunks ⟨[(K, V)], [], false⟩ cs,
          isKChunk K c = true → c = ⟨tEXtTy, K ++ 0 :: V⟩ := by
  have hchunks : ∀ l : List PngChunk, editPNGChunks ⟨[(K, V)], [], false⟩ l
      = insertBeforeIDAT (if l.any (isKChunk K) then [] else [⟨tEXtTy, K ++ 0 :: V⟩])
          (l.map (updKChunk K V)) := by
    intro l
    unfold editPNGChunks
    dsimp only
    rw [editPNGPass_set_map, pngAddChunks_single]
    rfl
  have hupd : updKChunk K V ⟨tEXtTy, K ++ 0 :: V⟩ = ⟨tEXtTy, K ++ 0 :: V⟩ := by
    unfold updKChunk
    rw [if_pos (isKChunk_bob K V hK h0)]
  have hmapmap : ∀ l : List PngChunk,
      (l.map (updKChunk K V)).map (updKChunk K V) = l.map (updKChunk K V) := by
    intro l
    rw [List.map_map]
    apply List.map_congr_left
    intro c _
    exact updKChunk_idem K V hK h0 c
  have hcount : ∀ l : List PngChunk,
      (l.map (updKChunk K V)).countP (isKChunk K) = l.countP (isKChunk K) := by
    intro l
    rw [List.countP_map]
    apply List.countP_congr
    intro c _
    simp only [Function.comp_apply, isKChunk_updKChunk K V hK h0]
  have hany : ∀ cs2 : List PngChunk,
      (editPNGChunks ⟨[(K, V)], [], false⟩ cs2).any (isKChunk K) = true := by
    intro cs2
    rw [hchunks]
    by_cases h : cs2.any (isKChunk K) = true
    · rw [if_pos h]
      obtain ⟨c, hc, hkc⟩ := List.any_eq_true.mp h
      apply List.any_eq_true.mpr
      refine ⟨updKChunk K V c, ?_, ?_⟩
      · exact (mem_insertBeforeIDAT _ _ _).mpr (Or.inr (List.mem_map_of_mem _ hc))
      · rw [isKChunk_updKChunk K V hK h0]
        exact hkc
    · rw [if_neg h]
      apply List.any_eq_true.mpr
      refine ⟨⟨tEXtTy, K ++ 0 :: V⟩, ?_, isKChunk_bob K V hK h0⟩
      exact (mem_insertBeforeIDAT _ _ _).mpr (Or.inl (List.mem_cons_self _ _))
  have hfix : (editPNGChunks ⟨[(K, V)], [], false⟩ cs).map (updKChunk K V)
      = editPNGChunks ⟨[(K, V)], [], false⟩ cs := by
    rw [hchunks cs]
    rw [insertBeforeIDAT_map (updKChunk K V) (updKChunk_typ K V)]
    rw [hmapmap]
    congr 1
    by_cases h : cs.any (isKChunk K) = true
    · rw [if_pos h]
      rfl
    · rw [if_neg h]
      rw [List.map_cons, List.map_nil, hupd]
  refine ⟨?_, ?_, ?_⟩
  · rw [hchunks (editPNGChunks ⟨[(K, V)], [], false⟩ cs)]
    rw [hany cs]
    rw [if_pos rfl]
    rw [insertBeforeIDAT_nil]
    exact hfix
  · intro hle
    rw [hchunks cs]
    rw [countP_insertBeforeIDAT]
    rw [hcount cs]
    by_cases h : cs.any (isKChunk K) = true
    · rw [if_pos h]
      have h1 : 0 < cs.countP (isKChunk K) := List.countP_pos_iff.mpr (List.any_eq_true.mp h)
      simp only [List.countP_nil]
      omega
    · rw [if_neg h]
      have h0c : cs.countP (isKChunk K) = 0 := by
        rw [List.countP_eq_zero]
        intro c hc hck
        exact h (List.any_eq_true.mpr ⟨c, hc, hck⟩)
      rw [h0c]
      rw [List.countP_cons, List.countP_nil, if_pos (isKChunk_bob K V hK h0)]
  · intro c hc hck
    rw [hchunks cs] at hc
    rcases (mem_insertBeforeIDAT _ _ _).mp hc with hmem | hmem
    · by_cases h : cs.any (isKChunk K) = true
      · rw [if_pos h] at hmem
        exact absurd hmem (List.not_mem_nil c)
      · rw [if_neg h] at hmem
        simpa using hmem
    · obtain ⟨c2, hc2, rfl⟩ := List.mem_map.mp hmem
      unfold updKChunk at hck ⊢
      by_cases h2 : isKChunk K c2 = true
      · rw [if_pos h2]
      · rw [if_neg h2] at hck
        exact absurd hck h2

/-- A PNG `delete {K}` edit on a stream with no deletable `K` tEXt chunk
is byte-identical: the parsed chunk list is re-serialized unchanged. -/
theorem png_delete_absent_aux (K : List Nat) (cs : List PngChunk)
    (hgood : ∀ c ∈ cs, GoodChunk c) (hiend : NoEarlyIend cs)
    (habs : ∀ c ∈ cs, isDelChunk [K] c = false) :
    editPNG (writePNGChunks cs) ⟨[], [K], false⟩ = .ok (some (writePNGChunks cs)) := by
  unfold editPNG
  rw [readPNGChunks_write cs hgood hiend]
  dsimp only
  rw [if_neg (by simp)]
  have hid : editPNGChunks ⟨[], [K], false⟩ cs = cs := by
    unfold editPNGChunks
    dsimp only
    rw [editPNGPass_del_filter]
    rw [show pngAddChunks [] [K] cs = [] from rfl]
    rw [insertBeforeIDAT_nil]
    apply List.filter_eq_self.mpr
    intro c hc
    simp [habs c hc]
  rw [hid]

/-- A PNG stream carrying two tEXt chunks with the same keyword `Author`
(duplicate keywords are not rejected by the parser). -/
def c6In : List Nat := writePNGChunks [authorAliceChunk, authorAliceChunk, ⟨iendTy, []⟩]

/-- The output of the first `edit(set={"Author":"Bob"})` on `c6In`. -/
def c6Mid : List Nat :=
  match editPNG c6In authorBobOpts with
  | .ok (some o) => o
  | _ => []

/-- The output of the second, identical edit on `c6Mid`. -/
def c6Out : List Nat :=
  match editPNG c6Mid authorBobOpts with
  | .ok (some o) => o
  | _ => []

/-- Claim C6, counterexample: on a PNG buffer holding two `Author` tEXt
chunks, applying `set {Author: Bob}` twice in succession leaves two
`Author=Bob` fields in the result, not exactly one — the in-place update
loop of `editPNG` rewrites every chunk whose keyword matches, so duplicate
keywords survive repeated edits. -/
theorem C6_png_duplicate_key_two_fields :
    editPNG c6In authorBobOpts = .ok (some c6Mid)
  ∧ editPNG c6Mid authorBobOpts = .ok (some c6Out)
  ∧ ((readPNGChunks c6Out).getD []).filter (fun c => decide (c.typ = tEXtTy))
      = [authorBobChunk, authorBobChunk]
  ∧ ((readPNGChunks c6Out).getD []).countP (isKChunk authorKey) = 2 :=
  ⟨by decide, by decide, by decide, by decide⟩

/-- Claim C6 (amended): set/delete idempotence holds on the PNG tEXt and
FLAC Vorbis Comment paths with one caveat about PNG duplicate keywords.
(1) A second identical PNG `set {K: V}` edit is the identity on the chunk
list; when the input holds at most one `K` tEXt chunk the result holds
exactly one, and every `K` tEXt chunk of the result is `K\x00V`.
(2) A PNG `delete {K}` edit with no matching tEXt chunk re-emits the
stream byte-identically, with no error.  (3) A FLAC `set {K: V}` edit on a
stream without a Vorbis Comment block inserts the one-field block after
block 0, and repeating the edit returns the same bytes unchanged.  (4) A
FLAC `delete {K}` edit whose upper-cased key is absent from the parsed
comment map rebuilds the block from the unchanged map, with no error. -/
theorem C6_amended_set_delete_idempotence :
    (∀ K V : List Nat, ∀ cs : List PngChunk, K ≠ [] → ¬ 0 ∈ K →
      (editPNGChunks ⟨[(K, V)], [], false⟩ (editPNGChunks ⟨[(K, V)], [], false⟩ cs)
          = editPNGChunks ⟨[(K, V)], [], false⟩ cs
        ∧ (cs.countP (isKChunk K) ≤ 1 →
            (editPNGChunks ⟨[(K, V)], [], false⟩ cs).countP (isKChunk K) = 1)
        ∧ ∀ c ∈ editPNGChunks ⟨[(K, V)], [], false⟩ cs,
            isKChunk K c = true → c = ⟨tEXtTy, K ++ 0 :: V⟩))
  ∧ (∀ K : List Nat, ∀ cs : List PngChunk, (∀ c ∈ cs, GoodChunk c) → NoEarlyIend cs →
      (∀ c ∈ cs, isDelChunk [K] c = false) →
      editPNG (writePNGChunks cs) ⟨[], [K], false⟩ = .ok (some (writePNGChunks cs)))
  ∧ (∀ K V : List Nat, ∀ b0 : FlacBlock, ∀ rest : List FlacBlock, ∀ audio : List Nat,
      GoodBlock b0 → b0.blockType ≠ 4 → (∀ b ∈ rest, GoodBlock b ∧ b.blockType ≠ 4) →
      K ≠ [] → ¬ 61 ∈ upperBytes K → 42 + K.length + V.length < 2 ^ 24 →
      (editFLAC (writeFLACBytes (b0 :: rest) audio) ⟨[(K, V)], [], false⟩
          = .ok (some (writeFLACBytes
              (b0 :: ⟨4, buildVorbisComment [(upperBytes K, V)]⟩ :: rest) audio))
        ∧ editFLAC (writeFLACBytes
              (b0 :: ⟨4, buildVorbisComment [(upperBytes K, V)]⟩ :: rest) audio)
            ⟨[(K, V)], [], false⟩
          = .ok (some (writeFLACBytes
              (b0 :: ⟨4, buildVorbisComment [(upperBytes K, V)]⟩ :: rest) audio))))
  ∧ (∀ delK vcdata : List Nat, ∀ b0 : FlacBlock, ∀ rest : List FlacBlock, ∀ audio : List Nat,
      GoodBlock b0 → b0.blockType ≠ 4 → vcdata.length < 2 ^ 24 →
      (∀ b ∈ rest, GoodBlock b) →
      (∀ p ∈ parseVorbisComments vcdata [], p.1 ≠ upperBytes delK) →
      editFLAC (writeFLACBytes (b0 :: ⟨4, vcdata⟩ :: rest) audio) ⟨[], [delK], false⟩
        = .ok (some (writeFLACBytes
            (b0 :: ⟨4, buildVorbisComment (parseVorbisComments vcdata [])⟩ :: rest) audio))) :=
  ⟨fun K V cs hK h0 => png_double_set_aux K V cs hK h0,
   fun K cs hg hi ha => png_delete_absent_aux K cs hg hi ha,
   fun K V b0 rest audio h1 h2 h3 h4 h5 h6 =>
     flac_double_set_aux K V b0 rest audio h1 h2 h3 h4 h5 h6,
   fun dk vd b0 rest audio h1 h2 h3 h4 h5 =>
     flac_delete_absent_aux dk vd b0 rest audio h1 h2 h3 h4 h5⟩

/-- Witness for the amended C6 statement at concrete inputs: one Author
chunk (PNG set twice, count one), a bare IDAT stream (PNG delete absent),
a one-block FLAC stream with `set={"TITLE":"X"}` (insert then fixpoint),
and a FLAC stream with an empty Vorbis block and `delete={"XX"}`. -/
theorem C6_amended_set_delete_idempotence_witness :
    (editPNGChunks ⟨[(authorKey, [66, 111, 98])], [], false⟩
        (editPNGChunks ⟨[(authorKey, [66, 111, 98])], [], false⟩ [authorAliceChunk])
      = editPNGChunks ⟨[(authorKey, [66, 111, 98])], [], false⟩ [authorAliceChunk])
  ∧ (editPNGChunks ⟨[(authorKey, [66, 111, 98])], [], false⟩ [authorAliceChunk]).countP
      (isKChunk authorKey) = 1
  ∧ editPNG (writePNGChunks [⟨idatTy, [0]⟩]) ⟨[], [authorKey], false⟩
      = .ok (some (writePNGChunks [⟨idatTy, [0]⟩]))
  ∧ editFLAC (writeFLACBytes [⟨0, [1, 2, 3, 4]⟩] [9, 9, 9])
      ⟨[([84, 73, 84, 76, 69], [88])], [], false⟩
      = .ok (some (writeFLACBytes
          [⟨0, [1, 2, 3, 4]⟩,
           ⟨4, buildVorbisComment [(upperBytes [84, 73, 84, 76, 69], [88])]⟩] [9, 9, 9]))
  ∧ editFLAC (writeFLACBytes
        [⟨0, [1, 2, 3, 4]⟩,
         ⟨4, buildVorbisComment [(upperBytes [84, 73, 84, 76, 69], [88])]⟩] [9, 9, 9])
      ⟨[([84, 73, 84, 76, 69], [88])], [], false⟩
      = .ok (some (writeFLACBytes
          [⟨0, [1, 2, 3, 4]⟩,
           ⟨4, buildVorbisComment [(upperBytes [84, 73, 84, 76, 69], [88])]⟩] [9, 9, 9]))
  ∧ editFLAC (writeFLACBytes [⟨0, [1]⟩, ⟨4, []⟩] [7]) ⟨[], [[88, 88]], false⟩
      = .ok (some (writeFLACBytes
          [⟨0, [1]⟩, ⟨4, buildVorbisComment (parseVorbisComments [] [])⟩] [7])) :=
  ⟨(C6_amended_set_delete_idempotence.1 authorKey [66, 111, 98] [authorAliceChunk]
      (by decide) (by decide)).1,
   (C6_amended_set_delete_idempotence.1 authorKey [66, 111, 98] [authorAliceChunk]
      (by decide) (by decide)).2.1 (by decide),
   C6_amended_set_delete_idempotence.2.1 authorKey [⟨idatTy, [0]⟩]
      (by decide) (by decide) (by decide),
   (C6_amended_set_delete_idempotence.2.2.1 [84, 73, 84, 76, 69] [88] ⟨0, [1, 2, 3, 4]⟩ []
      [9, 9, 9] (by decide) (by decide) (by decide) (by decide) (by decide) (by decide)).1,
   (C6_amended_set_delete_idempotence.2.2.1 [84, 73, 84, 76, 69] [88] ⟨0, [1, 2, 3, 4]⟩ []
      [9, 9, 9] (by decide) (by decide) (by decide) (by decide) (by decide) (by decide)).2,
   C6_amended_set_delete_idempotence.2.2.2 [88, 88] [] ⟨0, [1]⟩ [] [7]
      (by decide) (by decide) (by decide) (by decide) (by decide)⟩

end MMS
